import Mathlib

/-!
Verification of the instanced-mesh / scene-physics core of the smashbit engine.

The render/physics bridge (src/scene.rs, src/renderer/mesh.rs,
src/renderer/pipeline/color.rs) is embedded shallowly over exact rationals
(idealizing `f32` arithmetic); the glTF ingestion pipeline and the smooth-normal
synthesis (src/renderer/mod.rs, src/game.rs) are embedded over the reals, since
normalization needs square roots.  GPU buffers are modelled as slot-indexed
contents; wgpu handles, bind groups and shader state carry no instance data and
are omitted.
-/

/-- A 4x4 `f32` matrix in the column-major layout of `[[f32; 4]; 4]`
(`glam::Mat4::to_cols_array_2d`): `c j i` is column `j`, row `i`.
Scalars are idealized as exact rationals. -/
structure Mat4 where
  c : Fin 4 → Fin 4 → ℚ

/-- A 3x3 `f32` matrix in the column-major layout of `[[f32; 3]; 3]`. -/
structure Mat3 where
  c : Fin 3 → Fin 3 → ℚ

instance : DecidableEq Mat4 := fun a b =>
  decidable_of_iff (a.c = b.c) (by cases a; cases b; simp)

instance : DecidableEq Mat3 := fun a b =>
  decidable_of_iff (a.c = b.c) (by cases a; cases b; simp)

/-- Per-instance GPU payload (`InstanceRaw` in src/renderer/pipeline/mod.rs):
a 4x4 model matrix and a 3x3 normal matrix. -/
structure InstanceRaw where
  model : Mat4
  normal : Mat3

instance : DecidableEq InstanceRaw := fun a b =>
  decidable_of_iff (a.model = b.model ∧ a.normal = b.normal)
    (by cases a; cases b; simp)

/-- Zero-filled instance record, used as the junk value for uninitialized
GPU buffer slots (the source leaves such contents undefined). -/
def defaultInst : InstanceRaw := ⟨⟨fun _ _ => 0⟩, ⟨fun _ _ => 0⟩⟩

/-- Render-side mesh (`Mesh` in src/renderer/mesh.rs and the identical
`ColorMesh` in src/renderer/pipeline/color.rs), restricted to its
instance-management state: the CPU mirror `instances`, the tracked GPU
capacity `instance_capacity`, and the GPU instance buffer contents `buf`
(indexed by slot; one slot per `InstanceRaw`-sized offset).  `reallocs` is a
ghost counter incremented whenever `resize_instance_buffer` allocates a new
GPU buffer.  Vertex and index buffers are immutable and never consulted by
the instance operations, so they are omitted. -/
structure Mesh where
  instances : List InstanceRaw
  instance_capacity : ℕ
  buf : ℕ → InstanceRaw
  reallocs : ℕ

/-- `Mesh::resize_instance_buffer`: allocate a fresh buffer of `newCap` slots,
copy forward the currently-live prefix (`instances.len()` records) when
nonempty, and adopt the new buffer and capacity.  Slots beyond the copied
prefix are undefined in the source; the model fills them with `defaultInst`. -/
def Mesh.resize_instance_buffer (m : Mesh) (newCap : ℕ) : Mesh :=
  { instances := m.instances
    instance_capacity := newCap
    buf := fun j => if j < m.instances.length then m.buf j else defaultInst
    reallocs := m.reallocs + 1 }

/-- `Mesh::add_instance`: grow the buffer to `max(capacity*2, 1)` when the live
count has reached capacity, push the record onto the CPU mirror, and write it
into the GPU buffer at the tail slot. -/
def Mesh.add_instance (m : Mesh) (inst : InstanceRaw) : Mesh :=
  let m1 := if m.instances.length ≥ m.instance_capacity
            then m.resize_instance_buffer (max (m.instance_capacity * 2) 1)
            else m
  { instances := m1.instances ++ [inst]
    instance_capacity := m1.instance_capacity
    buf := fun j => if j = m1.instances.length then inst else m1.buf j
    reallocs := m1.reallocs }

/-- `Mesh::remove_instance` (swap-remove): the source asserts
`instance_index < instances.len()`; its only caller, `Scene::remove_instance`,
guards the call with exactly that bound, so the out-of-range branch of this
total model is never reached from the scene bridge.  In range: if the index is
the last live slot, pop; otherwise copy the last record over slot
`instance_index` in both the CPU mirror and the GPU buffer, then pop. -/
def Mesh.remove_instance (m : Mesh) (instance_index : ℕ) : Mesh :=
  if instance_index < m.instances.length then
    if instance_index = m.instances.length - 1 then
      { m with instances := m.instances.dropLast }
    else
      match m.instances.getLast? with
      | none => m
      | some last_instance =>
        { instances := (m.instances.set instance_index last_instance).dropLast
          instance_capacity := m.instance_capacity
          buf := fun j => if j = instance_index then last_instance else m.buf j
          reallocs := m.reallocs }
  else m

/-- `Mesh::remove_instances_batch`: filter-and-rewrite.  Keep exactly the
records whose position is not contained in `indices`, rewrite the live buffer
range in one transfer when the result is nonempty, and replace the mirror. -/
def Mesh.remove_instances_batch (m : Mesh) (indices : List ℕ) : Mesh :=
  let new_instances :=
    (m.instances.enum.filter (fun p => !(indices.contains p.1))).map Prod.snd
  { instances := new_instances
    instance_capacity := m.instance_capacity
    buf := if new_instances.isEmpty then m.buf
           else fun j => if j < new_instances.length
                         then new_instances.getD j defaultInst else m.buf j
    reallocs := m.reallocs }

/-- `Mesh::update_instance`: in-place overwrite of one live slot in mirror and
buffer; silently ignored when the index is not live. -/
def Mesh.update_instance (m : Mesh) (instance_index : ℕ) (new_instance : InstanceRaw) : Mesh :=
  if instance_index < m.instances.length then
    { instances := m.instances.set instance_index new_instance
      instance_capacity := m.instance_capacity
      buf := fun j => if j = instance_index then new_instance else m.buf j
      reallocs := m.reallocs }
  else m

/-- `Mesh::update_all_instances`: grow the buffer (to exactly the new count)
when the new count exceeds capacity, write the full new contents when
nonempty, and replace the mirror. -/
def Mesh.update_all_instances (m : Mesh) (insts : List InstanceRaw) : Mesh :=
  let m1 := if insts.length > m.instance_capacity
            then m.resize_instance_buffer insts.length
            else m
  { instances := insts
    instance_capacity := m1.instance_capacity
    buf := if insts.isEmpty then m1.buf
           else fun j => if j < insts.length then insts.getD j defaultInst else m1.buf j
    reallocs := m1.reallocs }

/-- `ColorPipeline::add_mesh` (src/renderer/pipeline/color.rs): the freshly
constructed mesh's instance buffer is initialized with exactly the given
records, and `instance_capacity` is set to their count. -/
def mkMesh (insts : List InstanceRaw) : Mesh :=
  { instances := insts
    instance_capacity := insts.length
    buf := fun j => if j < insts.length then insts.getD j defaultInst else defaultInst
    reallocs := 0 }

example : (mkMesh []).instance_capacity = 0 := rfl

example : ((mkMesh []).add_instance defaultInst).instance_capacity = 1 := rfl

example : ((mkMesh [defaultInst]).add_instance defaultInst).instance_capacity = 2 := rfl

example : ((mkMesh [defaultInst]).remove_instance 0).instances = [] := rfl

/-- C4: when a mesh is full (live length equals capacity `c`), one
`add_instance` call performs exactly one reallocation, to capacity
`max(c*2, 1)`, keeps all `c` previously live records unchanged in the CPU
mirror and in the copied GPU buffer prefix, and appends the new record at
index `c`; when the live length is below capacity no reallocation happens and
the capacity is unchanged. -/
theorem mesh_add_instance_growth_spec (m : Mesh) (inst : InstanceRaw) :
    (m.instances.length = m.instance_capacity →
      (m.add_instance inst).reallocs = m.reallocs + 1 ∧
      (m.add_instance inst).instance_capacity = max (m.instance_capacity * 2) 1 ∧
      (m.add_instance inst).instances = m.instances ++ [inst] ∧
      (∀ i, i < m.instances.length → (m.add_instance inst).buf i = m.buf i) ∧
      (m.add_instance inst).buf m.instances.length = inst) ∧
    (m.instances.length < m.instance_capacity →
      (m.add_instance inst).reallocs = m.reallocs ∧
      (m.add_instance inst).instance_capacity = m.instance_capacity ∧
      (m.add_instance inst).instances = m.instances ++ [inst]) := by
  constructor
  · intro h
    have hge : m.instances.length ≥ m.instance_capacity := le_of_eq h.symm
    refine ⟨?_, ?_, ?_, ?_, ?_⟩ <;>
      simp only [Mesh.add_instance, Mesh.resize_instance_buffer, if_pos hge]
    · intro i hi
      simp only [if_neg (Nat.ne_of_lt hi), if_pos hi]
    · simp
  · intro h
    have hlt : ¬ m.instances.length ≥ m.instance_capacity := not_le.mpr h
    refine ⟨?_, ?_, ?_⟩ <;> simp only [Mesh.add_instance, if_neg hlt]

/-- Closed witness for `mesh_add_instance_growth_spec` at a concrete full mesh
(capacity 1, one live instance) and a concrete non-full mesh. -/
theorem mesh_add_instance_growth_spec_witness :
    ((mkMesh [defaultInst]).add_instance defaultInst).instance_capacity
      = max ((mkMesh [defaultInst]).instance_capacity * 2) 1 ∧
    ((mkMesh [defaultInst]).add_instance defaultInst).reallocs
      = (mkMesh [defaultInst]).reallocs + 1 :=
  ⟨((mesh_add_instance_growth_spec (mkMesh [defaultInst]) defaultInst).1 rfl).2.1,
   ((mesh_add_instance_growth_spec (mkMesh [defaultInst]) defaultInst).1 rfl).1⟩

/-- C8: the batch removal keeps exactly the records whose positions are not
members of the given index list, in their original relative order
(so the result is a sublist of the original array), and the result depends
only on the index list's membership set: permutations and duplicate indices
do not change it. -/
theorem mesh_remove_instances_batch_spec (m : Mesh) (idxs idxs2 : List ℕ)
    (hset : ∀ n, n ∈ idxs ↔ n ∈ idxs2) :
    (m.remove_instances_batch idxs).instances
        = (m.instances.enum.filter (fun p => decide (p.1 ∉ idxs))).map Prod.snd ∧
    List.Sublist (m.remove_instances_batch idxs).instances m.instances ∧
    (m.remove_instances_batch idxs).instances
        = (m.remove_instances_batch idxs2).instances := by
  have hrepr : ∀ (js : List ℕ),
      (m.remove_instances_batch js).instances
        = (m.instances.enum.filter (fun p => decide (p.1 ∉ js))).map Prod.snd := by
    intro js
    simp only [Mesh.remove_instances_batch]
    congr 1
    apply List.filter_congr
    intro p _
    simp [List.contains, List.elem_eq_mem]
  refine ⟨hrepr idxs, ?_, ?_⟩
  · rw [hrepr idxs]
    have h1 : List.Sublist
        (m.instances.enum.filter (fun p => decide (p.1 ∉ idxs))) m.instances.enum :=
      List.filter_sublist _
    have h2 := h1.map Prod.snd
    rwa [show m.instances.enum.map Prod.snd = m.instances by
      simp [List.enum_eq_enumFrom]] at h2
  · rw [hrepr idxs, hrepr idxs2]
    congr 1
    apply List.filter_congr
    intro p _
    simp [hset p.1]

/-- Closed witness for `mesh_remove_instances_batch_spec`: unsorted index list
with a duplicate versus its deduplicated permutation. -/
theorem mesh_remove_instances_batch_spec_witness :
    ((mkMesh [defaultInst, defaultInst, defaultInst]).remove_instances_batch
        [2, 0, 2]).instances
      = ((mkMesh [defaultInst, defaultInst, defaultInst]).instances.enum.filter
          (fun p => decide (p.1 ∉ ([2, 0, 2] : List ℕ)))).map Prod.snd :=
  (mesh_remove_instances_batch_spec (mkMesh [defaultInst, defaultInst, defaultInst])
    [2, 0, 2] [0, 2] (by intro n; simp; tauto)).1

/-- The mutating mesh operations, as issued by the scene layer. -/
inductive MeshOp where
  | add (inst : InstanceRaw)
  | remove (i : ℕ)
  | removeBatch (idxs : List ℕ)
  | update (i : ℕ) (inst : InstanceRaw)
  | updateAll (insts : List InstanceRaw)

/-- Dispatch one mesh operation. -/
def Mesh.applyOp (m : Mesh) : MeshOp → Mesh
  | .add inst => m.add_instance inst
  | .remove i => m.remove_instance i
  | .removeBatch idxs => m.remove_instances_batch idxs
  | .update i inst => m.update_instance i inst
  | .updateAll insts => m.update_all_instances insts

theorem Mesh.applyOp_cap_mono (m : Mesh) (op : MeshOp) :
    m.instance_capacity ≤ (m.applyOp op).instance_capacity := by
  cases op with
  | add inst =>
    simp only [Mesh.applyOp, Mesh.add_instance]
    split
    · simp only [Mesh.resize_instance_buffer]
      omega
    · exact le_refl _
  | remove i =>
    simp only [Mesh.applyOp, Mesh.remove_instance]
    split
    · split
      · exact le_refl _
      · cases m.instances.getLast? <;> exact le_refl _
    · exact le_refl _
  | removeBatch idxs => exact le_refl _
  | update i inst =>
    simp only [Mesh.applyOp, Mesh.update_instance]
    split <;> exact le_refl _
  | updateAll insts =>
    simp only [Mesh.applyOp, Mesh.update_all_instances]
    split
    · simp only [Mesh.resize_instance_buffer]
      omega
    · exact le_refl _

theorem Mesh.applyOp_len_le_cap (m : Mesh) (op : MeshOp)
    (h : m.instances.length ≤ m.instance_capacity) :
    (m.applyOp op).instances.length ≤ (m.applyOp op).instance_capacity := by
  cases op with
  | add inst =>
    simp only [Mesh.applyOp, Mesh.add_instance]
    split
    · simp only [Mesh.resize_instance_buffer, List.length_append, List.length_singleton]
      omega
    · simp only [List.length_append, List.length_singleton]
      omega
  | remove i =>
    simp only [Mesh.applyOp, Mesh.remove_instance]
    split
    · split
      · simp only [List.length_dropLast]
        omega
      · cases hl : m.instances.getLast? with
        | none => exact h
        | some last =>
          simp only [List.length_dropLast, List.length_set]
          omega
    · exact h
  | removeBatch idxs =>
    simp only [Mesh.applyOp, Mesh.remove_instances_batch]
    have hsub : List.Sublist
        ((m.instances.enum.filter (fun p => !(idxs.contains p.1))).map Prod.snd)
        m.instances := by
      have h1 := (List.filter_sublist (p := fun p => !(idxs.contains p.1))
        m.instances.enum).map Prod.snd
      rwa [show m.instances.enum.map Prod.snd = m.instances by
        simp [List.enum_eq_enumFrom]] at h1
    exact le_trans hsub.length_le h
  | update i inst =>
    simp only [Mesh.applyOp, Mesh.update_instance]
    split
    · simpa using h
    · exact h
  | updateAll insts =>
    simp only [Mesh.applyOp, Mesh.update_all_instances]
    split
    · simp only [Mesh.resize_instance_buffer]
      omega
    · omega

/-- C10: a mesh built by `add_mesh` starts with live length equal to capacity,
and after any sequence of instance operations the live length still never
exceeds the tracked capacity; moreover no single operation ever decreases the
capacity, so the capacity over the whole sequence is monotone. -/
theorem mesh_capacity_invariant (insts : List InstanceRaw) (ops : List MeshOp) :
    (mkMesh insts).instances.length = (mkMesh insts).instance_capacity ∧
    (ops.foldl Mesh.applyOp (mkMesh insts)).instances.length
      ≤ (ops.foldl Mesh.applyOp (mkMesh insts)).instance_capacity ∧
    (mkMesh insts).instance_capacity
      ≤ (ops.foldl Mesh.applyOp (mkMesh insts)).instance_capacity ∧
    (∀ (m : Mesh) (op : MeshOp),
      m.instance_capacity ≤ (m.applyOp op).instance_capacity) := by
  refine ⟨rfl, ?_, ?_, Mesh.applyOp_cap_mono⟩
  all_goals {
    have main : ∀ (l : List MeshOp) (m : Mesh),
        m.instances.length ≤ m.instance_capacity →
        (l.foldl Mesh.applyOp m).instances.length
            ≤ (l.foldl Mesh.applyOp m).instance_capacity ∧
        m.instance_capacity ≤ (l.foldl Mesh.applyOp m).instance_capacity := by
      intro l
      induction l with
      | nil => exact fun m h => ⟨h, le_refl _⟩
      | cons op rest ih =>
        intro m h
        have step₁ := Mesh.applyOp_len_le_cap m op h
        have step₂ := Mesh.applyOp_cap_mono m op
        have := ih (m.applyOp op) step₁
        exact ⟨this.1, le_trans step₂ this.2⟩
    have h0 : (mkMesh insts).instances.length ≤ (mkMesh insts).instance_capacity :=
      le_of_eq rfl
    first
    | exact (main ops (mkMesh insts) h0).1
    | exact (main ops (mkMesh insts) h0).2
  }

/-- Association-list lookup, modelling `HashMap::get` / `BiHashMap::get_by_left`
(keys are `u64` mesh ids or `u128` composite ids, modelled as `ℕ`). -/
def lookupA {α : Type} (l : List (ℕ × α)) (k : ℕ) : Option α :=
  (l.find? (fun p => p.1 == k)).map Prod.snd

/-- Association-list in-place value update, modelling mutation through
`HashMap::get_mut`. -/
def updateA {α : Type} (l : List (ℕ × α)) (k : ℕ) (f : α → α) : List (ℕ × α) :=
  l.map (fun p => if p.1 = k then (p.1, f p.2) else p)

/-- Association-list key removal, modelling `HashMap::remove` /
`BiHashMap::remove_by_left`. -/
def removeKey {α : Type} (l : List (ℕ × α)) (k : ℕ) : List (ℕ × α) :=
  l.filter (fun p => !(p.1 == k))

theorem lookupA_cons_eq {α : Type} (p : ℕ × α) (rest : List (ℕ × α)) (k : ℕ)
    (h : p.1 = k) : lookupA (p :: rest) k = some p.2 := by
  simp only [lookupA]
  rw [List.find?_cons_of_pos _ (by simp [h])]
  rfl

theorem lookupA_cons_ne {α : Type} (p : ℕ × α) (rest : List (ℕ × α)) (k : ℕ)
    (h : p.1 ≠ k) : lookupA (p :: rest) k = lookupA rest k := by
  simp only [lookupA]
  rw [List.find?_cons_of_neg _ (by simp [h])]

theorem lookupA_updateA {α : Type} (l : List (ℕ × α)) (k : ℕ) (f : α → α) :
    lookupA (updateA l k f) k = (lookupA l k).map f := by
  induction l with
  | nil => rfl
  | cons p rest ih =>
    simp only [updateA, List.map_cons]
    by_cases h : p.1 = k
    · rw [if_pos h, lookupA_cons_eq (p.1, f p.2) _ _ h, lookupA_cons_eq _ _ _ h]
      rfl
    · rw [if_neg h, lookupA_cons_ne _ _ _ h, lookupA_cons_ne _ _ _ h]
      simpa only [updateA] using ih

theorem lookupA_updateA_ne {α : Type} (l : List (ℕ × α)) (k k2 : ℕ) (f : α → α)
    (h : k2 ≠ k) : lookupA (updateA l k f) k2 = lookupA l k2 := by
  induction l with
  | nil => rfl
  | cons p rest ih =>
    simp only [updateA, List.map_cons]
    by_cases hp : p.1 = k
    · rw [if_pos hp, lookupA_cons_ne (p.1, f p.2) _ _ (show p.1 ≠ k2 by omega),
        lookupA_cons_ne _ _ _ (show p.1 ≠ k2 by omega)]
      simpa only [updateA] using ih
    · rw [if_neg hp]
      by_cases hp2 : p.1 = k2
      · rw [lookupA_cons_eq _ _ _ hp2, lookupA_cons_eq _ _ _ hp2]
      · rw [lookupA_cons_ne _ _ _ hp2, lookupA_cons_ne _ _ _ hp2]
        simpa only [updateA] using ih

theorem lookupA_removeKey {α : Type} (l : List (ℕ × α)) (k : ℕ) :
    lookupA (removeKey l k) k = none := by
  induction l with
  | nil => rfl
  | cons p rest ih =>
    simp only [removeKey, List.filter_cons]
    by_cases h : p.1 = k
    · rw [if_neg (by simp [h])]
      simpa only [removeKey] using ih
    · rw [if_pos (by simp [h]), lookupA_cons_ne _ _ _ h]
      simpa only [removeKey] using ih

theorem lookupA_removeKey_ne {α : Type} (l : List (ℕ × α)) (k k2 : ℕ)
    (h : k2 ≠ k) : lookupA (removeKey l k) k2 = lookupA l k2 := by
  induction l with
  | nil => rfl
  | cons p rest ih =>
    simp only [removeKey, List.filter_cons]
    by_cases hp : p.1 = k
    · rw [if_neg (by simp [hp]), lookupA_cons_ne _ _ _ (show p.1 ≠ k2 by omega)]
      simpa only [removeKey] using ih
    · rw [if_pos (by simp [hp])]
      by_cases hp2 : p.1 = k2
      · rw [lookupA_cons_eq _ _ _ hp2, lookupA_cons_eq _ _ _ hp2]
      · rw [lookupA_cons_ne _ _ _ hp2, lookupA_cons_ne _ _ _ hp2]
        simpa only [removeKey] using ih

/-- A rapier rigid body, restricted to the state the scene bridge reads and
writes: the 128-bit `user_data` tag, and the body's current pose already in
homogeneous-matrix form (`body.position().to_homogeneous()`); the physics
integration that evolves the pose is an external black box. -/
structure Body where
  user_data : ℕ
  pose : Mat4

/-- Composite instance id `(mesh_id as u128) << 64 | (instance_index as u128)`.
Slot indices are `usize` values below `2^64`, so the bit-or is addition. -/
def compositeId (mesh_id instance_index : ℕ) : ℕ :=
  mesh_id * 2 ^ 64 + instance_index

/-- `bimap::BiHashMap::insert` (overwriting insert): any pairing sharing the
new left id or the new right value is removed, then the pair is added. -/
def bimapInsert (objs : List (ℕ × ℕ × ℕ)) (id : ℕ) (v : ℕ × ℕ) :
    List (ℕ × ℕ × ℕ) :=
  (id, v) :: objs.filter (fun p => !(p.1 == id) && !(p.2 == v))

/-- The scene state (`Scene` in src/scene.rs): the two pipelines' keyed mesh
collections, the bidirectional map `objects` from composite instance ids to
`(RigidBodyHandle, ColliderHandle)` pairs, the physics body and collider sets
(handles are `ℕ`), and the camera pose read by culling.  Hash maps are
determinized as association lists; the source iterates them in unspecified
order. -/
structure Scene where
  colorMeshes : List (ℕ × Mesh)
  textureMeshes : List (ℕ × Mesh)
  objects : List (ℕ × ℕ × ℕ)
  bodies : List (ℕ × Body)
  colliders : List ℕ
  camera_position : Fin 3 → ℚ
  camera_forward : Fin 3 → ℚ

/-- The mesh lookup of `Scene::remove_instance`:
`color_pipeline.meshes.get_mut(id).or(texture_pipeline.meshes.get_mut(id))`. -/
def Scene.lookupMesh (s : Scene) (mesh_id : ℕ) : Option Mesh :=
  (lookupA s.colorMeshes mesh_id).orElse (fun _ => lookupA s.textureMeshes mesh_id)

/-- Write an updated mesh back through the same `get_mut(..).or(..)` borrow:
the update lands in the color pipeline when the key is there, otherwise in the
texture pipeline. -/
def Scene.withMeshUpdated (s : Scene) (mesh_id : ℕ) (g : Mesh → Mesh) : Scene :=
  if (lookupA s.colorMeshes mesh_id).isSome then
    { s with colorMeshes := updateA s.colorMeshes mesh_id g }
  else
    { s with textureMeshes := updateA s.textureMeshes mesh_id g }

/-- Steps (1) of `Scene::remove_instance`: if the composite id resolves in the
bidirectional map, drop the pairing and remove the collider from the collider
set and the rigid body from the body set. -/
def Scene.removeObjectAt (s : Scene) (user_data_removed : ℕ) : Scene :=
  match lookupA s.objects user_data_removed with
  | some (rigid_body, collider) =>
    { s with
      objects := removeKey s.objects user_data_removed
      colliders := s.colliders.filter (fun c => !(c == collider))
      bodies := removeKey s.bodies rigid_body }
  | none => s

/-- Step (3) of `Scene::remove_instance`: re-key the physics object of the
former last slot to the freed slot, updating the moved body's user-data tag
when the body is still present. -/
def Scene.rekeyLastTo (s : Scene) (old_user_data_last user_data_removed : ℕ) : Scene :=
  match lookupA s.objects old_user_data_last with
  | some (rigid_body, a) =>
    { s with
      objects := bimapInsert (removeKey s.objects old_user_data_last)
        user_data_removed (rigid_body, a)
      bodies := updateA s.bodies rigid_body
        (fun b => { b with user_data := user_data_removed }) }
  | none => s

/-- `Scene::remove_instance`: no-op when the mesh key is absent or the slot is
out of the live range; otherwise swap-remove the render slot, remove the
physics object at the slot's composite id, and (when the removed slot was not
the last) re-key the moved last object's mapping and user-data tag. -/
def Scene.remove_instance (s : Scene) (mesh_id instance_index : ℕ) : Scene :=
  match s.lookupMesh mesh_id with
  | none => s
  | some mesh =>
    if instance_index ≥ mesh.instances.length then s
    else
      let last_index := mesh.instances.length - 1
      let s1 := s.withMeshUpdated mesh_id (fun m => m.remove_instance instance_index)
      let s2 := s1.removeObjectAt (compositeId mesh_id instance_index)
      if instance_index ≠ last_index then
        s2.rekeyLastTo (compositeId mesh_id last_index) (compositeId mesh_id instance_index)
      else s2

/-- C3: for a mesh key present in the registries and a slot index at or above
the mesh's live instance count, `Scene::remove_instance` returns early: the
whole scene — instance arrays, bidirectional object map, physics body and
collider sets — is unchanged. -/
theorem scene_remove_instance_out_of_range_noop (s : Scene) (mesh_id idx : ℕ)
    (m : Mesh) (hm : s.lookupMesh mesh_id = some m)
    (hidx : m.instances.length ≤ idx) :
    s.remove_instance mesh_id idx = s := by
  unfold Scene.remove_instance
  rw [hm]
  simp only [ge_iff_le, if_pos hidx]

/-- Concrete mesh with two live instances, for the scene witnesses. -/
def exMesh2 : Mesh := mkMesh [defaultInst, defaultInst]

/-- Concrete scene: one color mesh under key 7 with two instances, both slots
mapped to physics objects, matching bodies and colliders. -/
def exScene : Scene :=
  { colorMeshes := [(7, exMesh2)]
    textureMeshes := []
    objects := [(compositeId 7 0, (1, 10)), (compositeId 7 1, (2, 20))]
    bodies := [(1, ⟨compositeId 7 0, ⟨fun _ _ => 0⟩⟩), (2, ⟨compositeId 7 1, ⟨fun _ _ => 0⟩⟩)]
    colliders := [10, 20]
    camera_position := fun _ => 0
    camera_forward := fun _ => 0 }

/-- Closed witness for `scene_remove_instance_out_of_range_noop`: removing
slot 5 of a 2-instance mesh leaves the scene untouched. -/
theorem scene_remove_instance_out_of_range_noop_witness :
    exScene.remove_instance 7 5 = exScene :=
  scene_remove_instance_out_of_range_noop exScene 7 5 exMesh2 rfl (by decide)

theorem Mesh.remove_instance_instances (m : Mesh) (k : ℕ)
    (hk : k < m.instances.length) :
    (m.remove_instance k).instances.length = m.instances.length - 1 ∧
    (∀ j, j < m.instances.length - 1 → j ≠ k →
      (m.remove_instance k).instances[j]? = m.instances[j]?) ∧
    (k < m.instances.length - 1 →
      (m.remove_instance k).instances[k]? = m.instances[m.instances.length - 1]?) := by
  unfold Mesh.remove_instance
  rw [if_pos hk]
  by_cases hke : k = m.instances.length - 1
  · rw [if_pos hke]
    refine ⟨by simp, ?_, by omega⟩
    intro j hj _
    rw [List.getElem?_dropLast]
    simp [hj]
  · rw [if_neg hke]
    have hne : m.instances ≠ [] := by
      intro hnil
      rw [hnil] at hk
      simp at hk
    obtain ⟨last, hlast⟩ := Option.ne_none_iff_exists'.mp
      (mt List.getLast?_eq_none_iff.mp hne)
    rw [hlast]
    have hlen : ((m.instances.set k last).dropLast).length = m.instances.length - 1 := by
      simp
    refine ⟨hlen, ?_, ?_⟩
    · intro j hj hjk
      rw [List.getElem?_dropLast]
      simp only [List.length_set]
      rw [if_pos hj, List.getElem?_set_ne (by omega)]
    · intro hklt
      rw [List.getElem?_dropLast]
      simp only [List.length_set]
      rw [if_pos hklt, List.getElem?_set_self (by omega)]
      have hg := List.getLast?_eq_getElem? m.instances
      rw [hlast] at hg
      exact hg

theorem Scene.withMeshUpdated_objects (s : Scene) (mesh_id : ℕ) (g : Mesh → Mesh) :
    (s.withMeshUpdated mesh_id g).objects = s.objects ∧
    (s.withMeshUpdated mesh_id g).bodies = s.bodies ∧
    (s.withMeshUpdated mesh_id g).colliders = s.colliders := by
  unfold Scene.withMeshUpdated
  split <;> exact ⟨rfl, rfl, rfl⟩

theorem Scene.lookupMesh_withMeshUpdated (s : Scene) (mesh_id : ℕ) (g : Mesh → Mesh)
    (m : Mesh) (hm : s.lookupMesh mesh_id = some m) :
    (s.withMeshUpdated mesh_id g).lookupMesh mesh_id = some (g m) := by
  unfold Scene.lookupMesh at hm
  unfold Scene.withMeshUpdated
  cases hc : lookupA s.colorMeshes mesh_id with
  | some mc =>
    rw [hc] at hm
    have hmc : mc = m := Option.some.inj hm
    rw [if_pos (show (some mc).isSome = true from rfl)]
    show (lookupA (updateA s.colorMeshes mesh_id g) mesh_id).orElse
        (fun _ => lookupA s.textureMeshes mesh_id) = some (g m)
    rw [lookupA_updateA, hc, hmc]
    rfl
  | none =>
    rw [hc] at hm
    have hmt : lookupA s.textureMeshes mesh_id = some m := hm
    rw [if_neg (show ¬ (none : Option Mesh).isSome = true from Bool.false_ne_true)]
    show (lookupA s.colorMeshes mesh_id).orElse
        (fun _ => lookupA (updateA s.textureMeshes mesh_id g) mesh_id) = some (g m)
    rw [hc]
    show lookupA (updateA s.textureMeshes mesh_id g) mesh_id = some (g m)
    rw [lookupA_updateA, hmt]
    rfl

theorem Scene.removeObjectAt_meshes (s : Scene) (u : ℕ) :
    (s.removeObjectAt u).colorMeshes = s.colorMeshes ∧
    (s.removeObjectAt u).textureMeshes = s.textureMeshes := by
  unfold Scene.removeObjectAt
  cases h : lookupA s.objects u with
  | some pr =>
    cases pr
    exact ⟨rfl, rfl⟩
  | none => exact ⟨rfl, rfl⟩

theorem Scene.removeObjectAt_spec (s : Scene) (u rb c : ℕ)
    (h : lookupA s.objects u = some (rb, c)) :
    (s.removeObjectAt u).objects = removeKey s.objects u ∧
    (s.removeObjectAt u).bodies = removeKey s.bodies rb ∧
    (s.removeObjectAt u).colliders = s.colliders.filter (fun x => !(x == c)) := by
  unfold Scene.removeObjectAt
  rw [h]
  exact ⟨rfl, rfl, rfl⟩

theorem Scene.rekeyLastTo_meshes (s : Scene) (uo un : ℕ) :
    (s.rekeyLastTo uo un).colorMeshes = s.colorMeshes ∧
    (s.rekeyLastTo uo un).textureMeshes = s.textureMeshes ∧
    (s.rekeyLastTo uo un).colliders = s.colliders := by
  unfold Scene.rekeyLastTo
  cases h : lookupA s.objects uo with
  | some pr =>
    cases pr
    exact ⟨rfl, rfl, rfl⟩
  | none => exact ⟨rfl, rfl, rfl⟩

theorem Scene.rekeyLastTo_spec (s : Scene) (uo un rb a : ℕ)
    (h : lookupA s.objects uo = some (rb, a)) :
    (s.rekeyLastTo uo un).objects
      = bimapInsert (removeKey s.objects uo) un (rb, a) ∧
    (s.rekeyLastTo uo un).bodies
      = updateA s.bodies rb (fun b => { b with user_data := un }) := by
  unfold Scene.rekeyLastTo
  rw [h]
  exact ⟨rfl, rfl⟩

theorem mem_removeKey {α : Type} (l : List (ℕ × α)) (k : ℕ) (e : ℕ × α)
    (h : e ∈ removeKey l k) : e ∈ l ∧ e.1 ≠ k := by
  unfold removeKey at h
  have hmf := List.mem_filter.mp h
  refine ⟨hmf.1, ?_⟩
  have hb := hmf.2
  simpa using hb

theorem lookupA_eq_none_of_forall {α : Type} (l : List (ℕ × α)) (k : ℕ)
    (h : ∀ e ∈ l, e.1 ≠ k) : lookupA l k = none := by
  unfold lookupA
  rw [List.find?_eq_none.mpr]
  · rfl
  · intro a ha
    simp [h a ha]

theorem Scene.lookupMesh_congr (s t : Scene) (h1 : s.colorMeshes = t.colorMeshes)
    (h2 : s.textureMeshes = t.textureMeshes) (k : ℕ) :
    s.lookupMesh k = t.lookupMesh k := by
  unfold Scene.lookupMesh
  rw [h1, h2]

/-- C1: removing live slot `k` from a mesh with `n` instances through the
scene bridge shrinks the instance array to `n-1`; when `k < n-1` the former
last record now occupies slot `k` and every other surviving slot is
unchanged; the physics object mapped to `(meshKey, k)` is removed from the
bidirectional map and from the body and collider sets; and when `k < n-1`
the object formerly at `(meshKey, n-1)` is re-keyed to `(meshKey, k)` with
the moved body's user-data tag rewritten to the new composite id, while
`(meshKey, n-1)` no longer resolves in the map.  The hypothesis `hrights`
is the right-uniqueness half of the bidirectional-map invariant, restricted
to the removed pair. -/
theorem scene_remove_instance_swap_compacts (s : Scene) (mesh_id k : ℕ) (m : Mesh)
    (rb1 c1 rb2 c2 : ℕ) (b2 : Body)
    (hm : s.lookupMesh mesh_id = some m)
    (hk : k < m.instances.length)
    (hobj : lookupA s.objects (compositeId mesh_id k) = some (rb1, c1))
    (hrights : ∀ e ∈ s.objects, e.1 ≠ compositeId mesh_id k → e.2 ≠ (rb1, c1))
    (hlast : k < m.instances.length - 1 →
      lookupA s.objects (compositeId mesh_id (m.instances.length - 1)) = some (rb2, c2))
    (hb2 : k < m.instances.length - 1 → lookupA s.bodies rb2 = some b2)
    (hrb : rb1 ≠ rb2) :
    ∃ m2, (s.remove_instance mesh_id k).lookupMesh mesh_id = some m2 ∧
      m2.instances.length = m.instances.length - 1 ∧
      (∀ j, j < m.instances.length - 1 → j ≠ k →
        m2.instances[j]? = m.instances[j]?) ∧
      (k < m.instances.length - 1 →
        m2.instances[k]? = m.instances[m.instances.length - 1]?) ∧
      lookupA (s.remove_instance mesh_id k).bodies rb1 = none ∧
      c1 ∉ (s.remove_instance mesh_id k).colliders ∧
      (∀ e ∈ (s.remove_instance mesh_id k).objects, e.2 ≠ (rb1, c1)) ∧
      lookupA (s.remove_instance mesh_id k).objects
        (compositeId mesh_id (m.instances.length - 1)) = none ∧
      (k < m.instances.length - 1 →
        lookupA (s.remove_instance mesh_id k).objects (compositeId mesh_id k)
          = some (rb2, c2) ∧
        lookupA (s.remove_instance mesh_id k).bodies rb2
          = some { b2 with user_data := compositeId mesh_id k }) := by
  have hproc : s.remove_instance mesh_id k =
      (if k ≠ m.instances.length - 1 then
        Scene.rekeyLastTo
          (Scene.removeObjectAt
            (s.withMeshUpdated mesh_id (fun mm => mm.remove_instance k))
            (compositeId mesh_id k))
          (compositeId mesh_id (m.instances.length - 1)) (compositeId mesh_id k)
      else
        Scene.removeObjectAt
          (s.withMeshUpdated mesh_id (fun mm => mm.remove_instance k))
          (compositeId mesh_id k)) := by
    simp only [Scene.remove_instance, hm, ge_iff_le]
    rw [if_neg (by omega : ¬ m.instances.length ≤ k)]
  have w := Scene.withMeshUpdated_objects s mesh_id (fun mm => mm.remove_instance k)
  have hm1 := Scene.lookupMesh_withMeshUpdated s mesh_id
    (fun mm => mm.remove_instance k) m hm
  have hobj1 : lookupA (s.withMeshUpdated mesh_id
      (fun mm => mm.remove_instance k)).objects (compositeId mesh_id k)
      = some (rb1, c1) := by
    rw [w.1]
    exact hobj
  have ro := Scene.removeObjectAt_spec _ _ rb1 c1 hobj1
  have rm := Scene.removeObjectAt_meshes
    (s.withMeshUpdated mesh_id (fun mm => mm.remove_instance k)) (compositeId mesh_id k)
  have hmesh := Mesh.remove_instance_instances m k hk
  have hm2 : (Scene.removeObjectAt
      (s.withMeshUpdated mesh_id (fun mm => mm.remove_instance k))
      (compositeId mesh_id k)).lookupMesh mesh_id = some (m.remove_instance k) := by
    rw [Scene.lookupMesh_congr _ _ rm.1 rm.2]
    exact hm1
  by_cases hkl : k = m.instances.length - 1
  · rw [hproc, if_neg (by omega)]
    refine ⟨m.remove_instance k, hm2, hmesh.1, hmesh.2.1, hmesh.2.2, ?_, ?_, ?_, ?_, ?_⟩
    · rw [ro.2.1, w.2.1]
      exact lookupA_removeKey s.bodies rb1
    · rw [ro.2.2]
      intro hmem
      have := (List.mem_filter.mp hmem).2
      simp at this
    · intro e he
      rw [ro.1, w.1] at he
      have hme := mem_removeKey _ _ _ he
      exact hrights e hme.1 hme.2
    · rw [ro.1, w.1, ← hkl]
      exact lookupA_removeKey s.objects (compositeId mesh_id k)
    · intro hc
      omega
  · have hklt : k < m.instances.length - 1 := by omega
    have hne_ids : compositeId mesh_id (m.instances.length - 1) ≠ compositeId mesh_id k := by
      unfold compositeId
      omega
    have hobj2last : lookupA (Scene.removeObjectAt
        (s.withMeshUpdated mesh_id (fun mm => mm.remove_instance k))
        (compositeId mesh_id k)).objects
        (compositeId mesh_id (m.instances.length - 1)) = some (rb2, c2) := by
      rw [ro.1, w.1, lookupA_removeKey_ne _ _ _ hne_ids]
      exact hlast hklt
    have rk := Scene.rekeyLastTo_spec _ _ (compositeId mesh_id k) rb2 c2 hobj2last
    have rkm := Scene.rekeyLastTo_meshes
      (Scene.removeObjectAt
        (s.withMeshUpdated mesh_id (fun mm => mm.remove_instance k))
        (compositeId mesh_id k))
      (compositeId mesh_id (m.instances.length - 1)) (compositeId mesh_id k)
    rw [hproc, if_pos hkl]
    refine ⟨m.remove_instance k, ?_, hmesh.1, hmesh.2.1, hmesh.2.2, ?_, ?_, ?_, ?_, ?_⟩
    · rw [Scene.lookupMesh_congr _ _ rkm.1 rkm.2.1]
      exact hm2
    · rw [rk.2, lookupA_updateA_ne _ _ _ _ hrb, ro.2.1, w.2.1]
      exact lookupA_removeKey s.bodies rb1
    · rw [rkm.2.2, ro.2.2]
      intro hmem
      have := (List.mem_filter.mp hmem).2
      simp at this
    · intro e he
      rw [rk.1] at he
      unfold bimapInsert at he
      rcases List.mem_cons.mp he with hhead | htail
      · rw [hhead]
        intro hcontra
        have : rb2 = rb1 := (Prod.mk.injEq _ _ _ _).mp hcontra |>.1
        omega
      · have h1 := (List.mem_filter.mp htail).1
        have h2 := mem_removeKey _ _ _ h1
        rw [ro.1, w.1] at h2
        have h3 := mem_removeKey _ _ _ h2.1
        exact hrights e h3.1 h3.2
    · rw [rk.1]
      unfold bimapInsert
      rw [lookupA_cons_ne _ _ _ (by exact fun hcc => hne_ids hcc.symm)]
      apply lookupA_eq_none_of_forall
      intro e he
      have h1 := (List.mem_filter.mp he).1
      exact (mem_removeKey _ _ _ h1).2
    · intro _
      constructor
      · rw [rk.1]
        unfold bimapInsert
        exact lookupA_cons_eq _ _ _ rfl
      · rw [rk.2, lookupA_updateA, ro.2.1, w.2.1,
          lookupA_removeKey_ne _ _ _ (by omega : rb2 ≠ rb1), hb2 hklt]
        rfl

/-- Closed witness for `scene_remove_instance_swap_compacts`: removing slot 0
of the two-instance mesh in `exScene`. -/
theorem scene_remove_instance_swap_compacts_witness :
    ∃ m2, (exScene.remove_instance 7 0).lookupMesh 7 = some m2 ∧
      m2.instances.length = exMesh2.instances.length - 1 ∧
      (∀ j, j < exMesh2.instances.length - 1 → j ≠ 0 →
        m2.instances[j]? = exMesh2.instances[j]?) ∧
      (0 < exMesh2.instances.length - 1 →
        m2.instances[0]? = exMesh2.instances[exMesh2.instances.length - 1]?) ∧
      lookupA (exScene.remove_instance 7 0).bodies 1 = none ∧
      10 ∉ (exScene.remove_instance 7 0).colliders ∧
      (∀ e ∈ (exScene.remove_instance 7 0).objects, e.2 ≠ (1, 10)) ∧
      lookupA (exScene.remove_instance 7 0).objects
        (compositeId 7 (exMesh2.instances.length - 1)) = none ∧
      (0 < exMesh2.instances.length - 1 →
        lookupA (exScene.remove_instance 7 0).objects (compositeId 7 0)
          = some (2, 20) ∧
        lookupA (exScene.remove_instance 7 0).bodies 2
          = some { user_data := compositeId 7 0, pose := ⟨fun _ _ => 0⟩ }) :=
  scene_remove_instance_swap_compacts exScene 7 0 exMesh2 1 10 2 20
    ⟨compositeId 7 1, ⟨fun _ _ => 0⟩⟩ rfl (by decide) rfl (by decide)
    (fun _ => rfl) (fun _ => rfl) (by decide)

/-- The effect of one swap-remove on the instance mirror as a pure list
operation; out of range it is the identity, matching the scene-level guard. -/
def swapRemove {α : Type} (l : List α) (i : ℕ) : List α :=
  if i < l.length then
    if i = l.length - 1 then l.dropLast
    else
      match l.getLast? with
      | none => l
      | some last => (l.set i last).dropLast
  else l

theorem Mesh.remove_instance_eq_swapRemove (m : Mesh) (i : ℕ) :
    (m.remove_instance i).instances = swapRemove m.instances i := by
  unfold Mesh.remove_instance swapRemove
  split
  · split
    · rfl
    · cases m.instances.getLast? <;> rfl
  · rfl

theorem swapRemove_length {α : Type} (l : List α) (i : ℕ) (h : i < l.length) :
    (swapRemove l i).length = l.length - 1 := by
  unfold swapRemove
  rw [if_pos h]
  split
  · simp
  · have hne : l ≠ [] := by
      intro hn
      rw [hn] at h
      simp at h
    rw [List.getLast?_eq_getLast l hne]
    simp

/-- The elements of a list whose position, counting from `i`, is not a member
of `ds`. -/
def keepNotIdx {α : Type} (ds : List ℕ) : ℕ → List α → List α
  | _, [] => []
  | i, a :: t => if i ∈ ds then keepNotIdx ds (i + 1) t else a :: keepNotIdx ds (i + 1) t

theorem keepNotIdx_append {α : Type} (ds : List ℕ) (i : ℕ) (xs ys : List α) :
    keepNotIdx ds i (xs ++ ys)
      = keepNotIdx ds i xs ++ keepNotIdx ds (i + xs.length) ys := by
  induction xs generalizing i with
  | nil => simp [keepNotIdx]
  | cons a t ih =>
    simp only [List.cons_append, keepNotIdx, List.length_cons, List.append_eq]
    have harith : i + 1 + t.length = i + (t.length + 1) := by omega
    split
    · rw [ih, harith]
    · rw [ih, harith, List.cons_append]

theorem keepNotIdx_all_kept {α : Type} (ds : List ℕ) (i : ℕ) (xs : List α)
    (h : ∀ p, i ≤ p → p < i + xs.length → p ∉ ds) :
    keepNotIdx ds i xs = xs := by
  induction xs generalizing i with
  | nil => rfl
  | cons a t ih =>
    simp only [keepNotIdx]
    rw [if_neg (h i le_rfl (by simp))]
    rw [ih (i + 1) (fun p hp1 hp2 => h p (by omega) (by simp; omega))]

theorem keepNotIdx_congr {α : Type} (ds ds2 : List ℕ)
    (h : ∀ p, p ∈ ds ↔ p ∈ ds2) (i : ℕ) (xs : List α) :
    keepNotIdx ds i xs = keepNotIdx ds2 i xs := by
  induction xs generalizing i with
  | nil => rfl
  | cons a t ih =>
    simp only [keepNotIdx]
    by_cases hi : i ∈ ds
    · rw [if_pos hi, if_pos ((h i).mp hi), ih]
    · rw [if_neg hi, if_neg (fun hc => hi ((h i).mpr hc)), ih]

theorem keepNotIdx_cons_notin {α : Type} (d : ℕ) (ds : List ℕ) (i : ℕ) (xs : List α)
    (h : ∀ p, i ≤ p → p < i + xs.length → p ≠ d) :
    keepNotIdx (d :: ds) i xs = keepNotIdx ds i xs := by
  induction xs generalizing i with
  | nil => rfl
  | cons a t ih =>
    simp only [keepNotIdx]
    have hmem : (i ∈ d :: ds) ↔ (i ∈ ds) := by
      simp only [List.mem_cons]
      have := h i le_rfl (by simp)
      tauto
    by_cases hi : i ∈ ds
    · rw [if_pos (hmem.mpr hi), if_pos hi, ih]
      intro p hp1 hp2
      exact h p (by omega) (by simp at hp2 ⊢; omega)
    · rw [if_neg (fun hc => hi (hmem.mp hc)), if_neg hi, ih]
      intro p hp1 hp2
      exact h p (by omega) (by simp at hp2 ⊢; omega)

theorem swapRemove_dropLast {α : Type} (l : List α) (d : ℕ) (hd : d < l.length)
    (hdl : d = l.length - 1) : swapRemove l d = l.dropLast := by
  unfold swapRemove
  rw [if_pos hd, if_pos hdl]

theorem swapRemove_set {α : Type} (l : List α) (d : ℕ) (hd : d < l.length)
    (hdl : ¬ d = l.length - 1) (hne : l ≠ []) :
    swapRemove l d = l.dropLast.set d (l.getLast hne) := by
  unfold swapRemove
  rw [if_pos hd, if_neg hdl, List.getLast?_eq_getLast l hne]
  show (l.set d (l.getLast hne)).dropLast = l.dropLast.set d (l.getLast hne)
  apply List.ext_getElem?
  intro i
  rw [List.getElem?_dropLast]
  simp only [List.length_set]
  by_cases hin : i < l.length - 1
  · rw [if_pos hin]
    by_cases hid : i = d
    · subst hid
      rw [List.getElem?_set_self (by omega),
        List.getElem?_set_self (by simp only [List.length_dropLast]; omega)]
    · rw [List.getElem?_set_ne (show d ≠ i by omega),
        List.getElem?_set_ne (show d ≠ i by omega), List.getElem?_dropLast,
        if_pos hin]
  · rw [if_neg hin]
    symm
    apply List.getElem?_eq_none
    simp only [List.length_set, List.length_dropLast]
    omega

theorem foldl_swapRemove_perm {α : Type} (l : List α) (ds : List ℕ)
    (hsorted : List.Pairwise (fun a b => a > b) ds)
    (hbound : ∀ d ∈ ds, d < l.length) :
    (ds.foldl swapRemove l).Perm (keepNotIdx ds 0 l) := by
  induction ds generalizing l with
  | nil =>
    rw [List.foldl_nil, keepNotIdx_all_kept _ _ _ (fun p _ _ hc => by simp at hc)]
  | cons d ds ih =>
    have hd : d < l.length := hbound d (List.mem_cons_self d ds)
    have hpc := List.pairwise_cons.mp hsorted
    have hds_lt : ∀ p ∈ ds, p < d := hpc.1
    have hne : l ≠ [] := by
      intro hnl
      rw [hnl] at hd
      simp at hd
    have hlen : (swapRemove l d).length = l.length - 1 := swapRemove_length l d hd
    have hIH := ih (swapRemove l d) hpc.2 (by
      intro p hp
      rw [hlen]
      have h1 := hds_lt p hp
      omega)
    rw [List.foldl_cons]
    refine hIH.trans ?_
    by_cases hdl : d = l.length - 1
    · rw [swapRemove_dropLast l d hd hdl]
      have hrepr : keepNotIdx (d :: ds) 0 l = keepNotIdx ds 0 l.dropLast := by
        conv_lhs => rw [← List.dropLast_append_getLast hne]
        rw [keepNotIdx_append]
        have hlast : keepNotIdx (d :: ds) (0 + l.dropLast.length) [l.getLast hne]
            = [] := by
          have hdd : l.dropLast.length = d := by
            simp only [List.length_dropLast]
            omega
          simp only [keepNotIdx, hdd, Nat.zero_add]
          rw [if_pos (List.mem_cons_self d ds)]
        rw [hlast, List.append_nil,
          keepNotIdx_cons_notin d ds 0 l.dropLast (by
            intro p _ hp2 hpd
            simp only [List.length_dropLast, Nat.zero_add] at hp2
            omega)]
      rw [hrepr]
    · have hdlt : d < l.length - 1 := by omega
      have hdlen : d < l.dropLast.length := by
        simp only [List.length_dropLast]
        omega
      rw [swapRemove_set l d hd hdl hne]
      have hL : keepNotIdx ds 0 (l.dropLast.set d (l.getLast hne))
          = keepNotIdx ds 0 (l.dropLast.take d)
            ++ l.getLast hne :: l.dropLast.drop (d + 1) := by
        rw [List.set_eq_take_append_cons_drop, if_pos hdlen, keepNotIdx_append]
        have htl : (l.dropLast.take d).length = d := by
          simp only [List.length_take]
          omega
        rw [htl]
        congr 1
        simp only [keepNotIdx, Nat.zero_add]
        rw [if_neg (fun hc => absurd (hds_lt d hc) (by omega))]
        congr 1
        apply keepNotIdx_all_kept
        intro p hp1 _ hpds
        have := hds_lt p hpds
        omega
      have hR : keepNotIdx (d :: ds) 0 l
          = (keepNotIdx ds 0 (l.dropLast.take d) ++ l.dropLast.drop (d + 1))
            ++ [l.getLast hne] := by
        conv_lhs => rw [← List.dropLast_append_getLast hne]
        rw [keepNotIdx_append]
        congr 1
        · conv_lhs => rw [← List.take_append_drop d l.dropLast]
          rw [keepNotIdx_append]
          have htl : (l.dropLast.take d).length = d := by
            simp only [List.length_take]
            omega
          rw [htl, keepNotIdx_cons_notin d ds 0 (l.dropLast.take d) (by
            intro p _ hp2 hpd
            rw [htl] at hp2
            omega)]
          congr 1
          rw [List.drop_eq_getElem_cons hdlen]
          simp only [keepNotIdx, Nat.zero_add]
          rw [if_pos (List.mem_cons_self d ds)]
          apply keepNotIdx_all_kept
          intro p hp1 _ hpds
          rcases List.mem_cons.mp hpds with hpd | hpds2
          · omega
          · have := hds_lt p hpds2
            omega
        · have hdd : l.dropLast.length = l.length - 1 := by simp
          simp only [keepNotIdx, Nat.zero_add, hdd]
          rw [if_neg (by
            intro hc
            rcases List.mem_cons.mp hc with hpd | hpds2
            · omega
            · have := hds_lt _ hpds2
              omega)]
      rw [hL, hR]
      have hmid : (l.getLast hne :: l.dropLast.drop (d + 1)).Perm
          (l.dropLast.drop (d + 1) ++ [l.getLast hne]) := by
        have :
            ([l.getLast hne] ++ l.dropLast.drop (d + 1)).Perm
              (l.dropLast.drop (d + 1) ++ [l.getLast hne]) :=
          List.perm_append_comm
        simpa using this
      refine (List.Perm.append_left _ hmid).trans ?_
      rw [List.append_assoc]

/-- Positions (counting from `n`) of the elements satisfying `P`. -/
def markedIdxsFrom {α : Type} (P : α → Bool) (n : ℕ) (l : List α) : List ℕ :=
  ((l.enumFrom n).filter (fun q => P q.2)).map Prod.fst

/-- Positions of the elements satisfying `P`, as produced by
`instances.iter().enumerate()` plus the mark predicate. -/
def markedIdxs {α : Type} (P : α → Bool) (l : List α) : List ℕ :=
  (l.enum.filter (fun q => P q.2)).map Prod.fst

theorem markedIdxs_eq_from {α : Type} (P : α → Bool) (l : List α) :
    markedIdxs P l = markedIdxsFrom P 0 l := by
  unfold markedIdxs markedIdxsFrom
  rw [List.enum_eq_enumFrom]

theorem mem_markedIdxsFrom_le {α : Type} (P : α → Bool) (n : ℕ) (l : List α)
    (d : ℕ) (hd : d ∈ markedIdxsFrom P n l) : n ≤ d := by
  unfold markedIdxsFrom at hd
  obtain ⟨q, hq, hqd⟩ := List.mem_map.mp hd
  have hq2 := (List.mem_filter.mp hq).1
  obtain ⟨i, x⟩ := q
  have := (List.mk_mem_enumFrom_iff_le_and_getElem?_sub.mp hq2).1
  omega

theorem markedIdxsFrom_cons {α : Type} (P : α → Bool) (n : ℕ) (a : α) (t : List α) :
    markedIdxsFrom P n (a :: t)
      = if P a then n :: markedIdxsFrom P (n + 1) t else markedIdxsFrom P (n + 1) t := by
  unfold markedIdxsFrom
  rw [List.enumFrom_cons, List.filter_cons]
  by_cases hP : P a
  · rw [if_pos (by simpa using hP), if_pos hP, List.map_cons]
  · rw [if_neg (by simpa using hP), if_neg hP]

theorem markedIdxs_pairwise_lt {α : Type} (P : α → Bool) (l : List α) :
    List.Pairwise (fun a b => a < b) (markedIdxs P l) := by
  rw [markedIdxs_eq_from]
  suffices h : ∀ n, List.Pairwise (fun a b => a < b) (markedIdxsFrom P n l) from h 0
  induction l with
  | nil => intro n; simp [markedIdxsFrom]
  | cons a t ih =>
    intro n
    rw [markedIdxsFrom_cons]
    by_cases hP : P a
    · rw [if_pos hP]
      refine List.pairwise_cons.mpr ⟨?_, ih (n + 1)⟩
      intro d hd
      have := mem_markedIdxsFrom_le P (n + 1) t d hd
      omega
    · rw [if_neg hP]
      exact ih (n + 1)

theorem markedIdxs_bounded {α : Type} (P : α → Bool) (l : List α)
    (d : ℕ) (hd : d ∈ markedIdxs P l) : d < l.length := by
  unfold markedIdxs at hd
  obtain ⟨q, hq, hqd⟩ := List.mem_map.mp hd
  have hq2 := (List.mem_filter.mp hq).1
  have := List.mem_enum_iff_getElem?.mp hq2
  have hlt := (List.getElem?_eq_some.mp this).1
  omega

theorem keepNotIdx_markedIdxs {α : Type} (P : α → Bool) (l : List α) :
    keepNotIdx (markedIdxs P l) 0 l = l.filter (fun a => !(P a)) := by
  rw [markedIdxs_eq_from]
  suffices h : ∀ n, keepNotIdx (markedIdxsFrom P n l) n l = l.filter (fun a => !(P a)) from h 0
  induction l with
  | nil => intro n; rfl
  | cons a t ih =>
    intro n
    rw [markedIdxsFrom_cons, List.filter_cons]
    have hnotmem : n ∉ markedIdxsFrom P (n + 1) t := by
      intro hc
      have := mem_markedIdxsFrom_le P (n + 1) t n hc
      omega
    by_cases hP : P a
    · rw [if_pos hP, if_neg (by simpa using hP)]
      simp only [keepNotIdx]
      rw [if_pos (List.mem_cons_self n _)]
      rw [keepNotIdx_cons_notin n _ (n + 1) t (fun p hp1 _ => by omega)]
      exact ih (n + 1)
    · rw [if_neg hP, if_pos (by simpa using hP)]
      simp only [keepNotIdx]
      rw [if_neg hnotmem]
      rw [ih (n + 1)]

/-- The culling mark test of `Scene::cull_instances_behind_camera`: extract the
translation column of the model matrix and test the dot product of
`(position - camera_position)` with the camera's forward vector for
negativity. -/
def Scene.behindCamera (s : Scene) (inst : InstanceRaw) : Bool :=
  decide ((inst.model.c 3 0 - s.camera_position 0) * s.camera_forward 0
      + (inst.model.c 3 1 - s.camera_position 1) * s.camera_forward 1
      + (inst.model.c 3 2 - s.camera_position 2) * s.camera_forward 2 < 0)

/-- The `(mesh_id, instance_index)` pairs one mesh contributes to `to_remove`:
its instances are enumerated in slot order and the marked ones recorded. -/
def Scene.cullChunk (s : Scene) (km : ℕ × Mesh) : List (ℕ × ℕ) :=
  (km.2.instances.enum.filter (fun q => s.behindCamera q.2)).map (fun q => (km.1, q.1))

/-- The full `to_remove` list of `Scene::cull_instances_behind_camera`: color
meshes chained with texture meshes, each contributing its marked slots in
ascending order. -/
def Scene.cullRemovalList (s : Scene) : List (ℕ × ℕ) :=
  (s.colorMeshes ++ s.textureMeshes).flatMap s.cullChunk

/-- `Scene::cull_instances_behind_camera`: collect `to_remove` against the
current state, then apply `Scene::remove_instance` to its entries in reverse
collection order. -/
def Scene.cull_instances_behind_camera (s : Scene) : Scene :=
  (s.cullRemovalList).reverse.foldl (fun acc p => acc.remove_instance p.1 p.2) s

/-- The CPU instance mirror of the mesh stored under `k`, if any. -/
def Scene.meshInstances (s : Scene) (k : ℕ) : Option (List InstanceRaw) :=
  (s.lookupMesh k).map Mesh.instances

theorem Scene.lookupMesh_withMeshUpdated_ne (s : Scene) (k k2 : ℕ) (g : Mesh → Mesh)
    (h : k2 ≠ k) : (s.withMeshUpdated k g).lookupMesh k2 = s.lookupMesh k2 := by
  unfold Scene.withMeshUpdated Scene.lookupMesh
  split
  · show (lookupA (updateA s.colorMeshes k g) k2).orElse
        (fun _ => lookupA s.textureMeshes k2) = _
    rw [lookupA_updateA_ne _ _ _ _ h]
  · show (lookupA s.colorMeshes k2).orElse
        (fun _ => lookupA (updateA s.textureMeshes k g) k2) = _
    cases hc : lookupA s.colorMeshes k2 with
    | some mc => rfl
    | none =>
      show lookupA (updateA s.textureMeshes k g) k2 = lookupA s.textureMeshes k2
      exact lookupA_updateA_ne _ _ _ _ h

theorem Scene.remove_instance_meshInstances_ne (s : Scene) (k i k2 : ℕ) (h : k2 ≠ k) :
    (s.remove_instance k i).meshInstances k2 = s.meshInstances k2 := by
  unfold Scene.meshInstances
  cases hm : s.lookupMesh k with
  | none =>
    rw [show s.remove_instance k i = s by
      unfold Scene.remove_instance
      rw [hm]]
  | some mesh =>
    by_cases hge : i ≥ mesh.instances.length
    · rw [show s.remove_instance k i = s by
        simp only [Scene.remove_instance, hm, ge_iff_le]
        rw [if_pos hge]]
    · have hproc : s.remove_instance k i =
          (if i ≠ mesh.instances.length - 1 then
            Scene.rekeyLastTo (Scene.removeObjectAt
              (s.withMeshUpdated k (fun mm => mm.remove_instance i)) (compositeId k i))
              (compositeId k (mesh.instances.length - 1)) (compositeId k i)
          else
            Scene.removeObjectAt (s.withMeshUpdated k (fun mm => mm.remove_instance i))
              (compositeId k i)) := by
        simp only [Scene.remove_instance, hm, ge_iff_le]
        rw [if_neg (by omega : ¬ mesh.instances.length ≤ i)]
      rw [hproc]
      split
      · rw [Scene.lookupMesh_congr _ _ (Scene.rekeyLastTo_meshes _ _ _).1
            (Scene.rekeyLastTo_meshes _ _ _).2.1,
          Scene.lookupMesh_congr _ _ (Scene.removeObjectAt_meshes _ _).1
            (Scene.removeObjectAt_meshes _ _).2,
          Scene.lookupMesh_withMeshUpdated_ne _ _ _ _ h]
      · rw [Scene.lookupMesh_congr _ _ (Scene.removeObjectAt_meshes _ _).1
            (Scene.removeObjectAt_meshes _ _).2,
          Scene.lookupMesh_withMeshUpdated_ne _ _ _ _ h]

theorem Scene.remove_instance_meshInstances_self (s : Scene) (k i : ℕ) :
    (s.remove_instance k i).meshInstances k
      = (s.meshInstances k).map (fun l => swapRemove l i) := by
  unfold Scene.meshInstances
  cases hm : s.lookupMesh k with
  | none =>
    rw [show s.remove_instance k i = s by
      unfold Scene.remove_instance
      rw [hm], hm]
    rfl
  | some mesh =>
    by_cases hge : i ≥ mesh.instances.length
    · rw [show s.remove_instance k i = s by
        simp only [Scene.remove_instance, hm, ge_iff_le]
        rw [if_pos hge], hm]
      show some mesh.instances = some (swapRemove mesh.instances i)
      unfold swapRemove
      rw [if_neg (by omega)]
    · have hproc : s.remove_instance k i =
          (if i ≠ mesh.instances.length - 1 then
            Scene.rekeyLastTo (Scene.removeObjectAt
              (s.withMeshUpdated k (fun mm => mm.remove_instance i)) (compositeId k i))
              (compositeId k (mesh.instances.length - 1)) (compositeId k i)
          else
            Scene.removeObjectAt (s.withMeshUpdated k (fun mm => mm.remove_instance i))
              (compositeId k i)) := by
        simp only [Scene.remove_instance, hm, ge_iff_le]
        rw [if_neg (by omega : ¬ mesh.instances.length ≤ i)]
      have hup := Scene.lookupMesh_withMeshUpdated s k
        (fun mm => mm.remove_instance i) mesh hm
      rw [hproc]
      split
      · rw [Scene.lookupMesh_congr _ _ (Scene.rekeyLastTo_meshes _ _ _).1
            (Scene.rekeyLastTo_meshes _ _ _).2.1,
          Scene.lookupMesh_congr _ _ (Scene.removeObjectAt_meshes _ _).1
            (Scene.removeObjectAt_meshes _ _).2,
          hup]
        show some (mesh.remove_instance i).instances = some (swapRemove mesh.instances i)
        rw [Mesh.remove_instance_eq_swapRemove]
      · rw [Scene.lookupMesh_congr _ _ (Scene.removeObjectAt_meshes _ _).1
            (Scene.removeObjectAt_meshes _ _).2,
          hup]
        show some (mesh.remove_instance i).instances = some (swapRemove mesh.instances i)
        rw [Mesh.remove_instance_eq_swapRemove]

theorem cull_fold_meshInstances (rl : List (ℕ × ℕ)) (s0 : Scene) (k : ℕ) :
    ((rl.foldl (fun acc p => acc.remove_instance p.1 p.2) s0).meshInstances k)
      = (s0.meshInstances k).map
          (fun l => ((rl.filter (fun p => p.1 == k)).map Prod.snd).foldl swapRemove l) := by
  induction rl generalizing s0 with
  | nil =>
    rw [List.foldl_nil]
    cases h : s0.meshInstances k <;> rfl
  | cons p rest ih =>
    obtain ⟨pk, pi⟩ := p
    rw [List.foldl_cons, ih, List.filter_cons]
    by_cases hpk : pk = k
    · subst hpk
      rw [if_pos (by simp), List.map_cons, Scene.remove_instance_meshInstances_self]
      cases ho : s0.meshInstances pk <;> rfl
    · rw [if_neg (by simpa using hpk),
        Scene.remove_instance_meshInstances_ne s0 pk pi k (fun hc => hpk hc.symm)]

theorem lookupA_append {α : Type} (l1 l2 : List (ℕ × α)) (k : ℕ) :
    lookupA (l1 ++ l2) k = (lookupA l1 k).orElse (fun _ => lookupA l2 k) := by
  induction l1 with
  | nil => rfl
  | cons p rest ih =>
    by_cases hp : p.1 = k
    · rw [List.cons_append, lookupA_cons_eq _ _ _ hp, lookupA_cons_eq _ _ _ hp]
      rfl
    · rw [List.cons_append, lookupA_cons_ne _ _ _ hp, lookupA_cons_ne _ _ _ hp, ih]

theorem Scene.lookupMesh_eq_append (s : Scene) (k : ℕ) :
    s.lookupMesh k = lookupA (s.colorMeshes ++ s.textureMeshes) k :=
  (lookupA_append s.colorMeshes s.textureMeshes k).symm

theorem cullList_filter_key (s : Scene) (ml : List (ℕ × Mesh)) (k : ℕ) (m : Mesh)
    (hnd : (ml.map Prod.fst).Nodup) (hm : lookupA ml k = some m) :
    (ml.flatMap s.cullChunk).filter (fun p => p.1 == k) = s.cullChunk (k, m) := by
  induction ml with
  | nil => cases hm
  | cons hd rest ih =>
    rw [List.flatMap_cons, List.filter_append]
    rw [List.map_cons] at hnd
    have hnd2 := List.nodup_cons.mp hnd
    by_cases hk : hd.1 = k
    · have hm2 : hd.2 = m := by
        rw [lookupA_cons_eq _ _ _ hk] at hm
        exact Option.some.inj hm
      have h1 : (s.cullChunk hd).filter (fun p => p.1 == k) = s.cullChunk hd := by
        apply List.filter_eq_self.mpr
        intro e he
        unfold Scene.cullChunk at he
        obtain ⟨q, _, hqe⟩ := List.mem_map.mp he
        rw [← hqe]
        simp [hk]
      have h2 : (rest.flatMap s.cullChunk).filter (fun p => p.1 == k) = [] := by
        apply List.filter_eq_nil_iff.mpr
        intro e he
        obtain ⟨e2, he2, hee⟩ := List.mem_flatMap.mp he
        unfold Scene.cullChunk at hee
        obtain ⟨q, _, hqe⟩ := List.mem_map.mp hee
        rw [← hqe]
        have he21 : e2.1 ≠ k := by
          intro hc
          apply hnd2.1
          rw [hk, ← hc]
          exact List.mem_map_of_mem Prod.fst he2
        simp [he21]
      rw [h1, h2, List.append_nil]
      have heq : hd = (k, m) := by
        obtain ⟨h1, h2⟩ := hd
        simp only [Prod.mk.injEq]
        exact ⟨hk, hm2⟩
      rw [heq]
    · rw [lookupA_cons_ne _ _ _ hk] at hm
      have h1 : (s.cullChunk hd).filter (fun p => p.1 == k) = [] := by
        apply List.filter_eq_nil_iff.mpr
        intro e he
        unfold Scene.cullChunk at he
        obtain ⟨q, _, hqe⟩ := List.mem_map.mp he
        rw [← hqe]
        simp [hk]
      rw [h1, List.nil_append]
      exact ih hnd2.2 hm

/-- C2: with distinct mesh keys across the two pipelines, for every stored
mesh the culling pass applies its removals in strictly descending slot order
(the per-mesh application order is exactly the reverse of the ascending
enumeration of the marked slots, whose marks are `dot(p - cam, fwd) < 0` on
the model-matrix translation), and the surviving instances of each mesh are
exactly (as a multiset) the ones not behind the camera. -/
theorem scene_cull_behind_camera_spec (s : Scene)
    (hnd : ((s.colorMeshes ++ s.textureMeshes).map Prod.fst).Nodup) :
    ∀ mesh_id m, s.lookupMesh mesh_id = some m →
      ((s.cullRemovalList.reverse.filter (fun p => p.1 == mesh_id)).map Prod.snd
          = (markedIdxs (fun inst => s.behindCamera inst) m.instances).reverse ∧
        List.Pairwise (fun a b => a > b)
          ((s.cullRemovalList.reverse.filter (fun p => p.1 == mesh_id)).map Prod.snd)) ∧
      ∃ m2, s.cull_instances_behind_camera.lookupMesh mesh_id = some m2 ∧
        m2.instances.Perm (m.instances.filter (fun inst => !(s.behindCamera inst))) := by
  intro mesh_id m hm
  have hmapp : lookupA (s.colorMeshes ++ s.textureMeshes) mesh_id = some m := by
    rw [← Scene.lookupMesh_eq_append]
    exact hm
  have hfilt : (s.cullRemovalList.filter (fun p => p.1 == mesh_id))
      = s.cullChunk (mesh_id, m) := cullList_filter_key s _ mesh_id m hnd hmapp
  have hsnd : (s.cullChunk (mesh_id, m)).map Prod.snd
      = markedIdxs (fun inst => s.behindCamera inst) m.instances := by
    unfold Scene.cullChunk markedIdxs
    rw [List.map_map]
    rfl
  have hrevfilt : (s.cullRemovalList.reverse.filter (fun p => p.1 == mesh_id)).map Prod.snd
      = (markedIdxs (fun inst => s.behindCamera inst) m.instances).reverse := by
    rw [List.filter_reverse, hfilt, List.map_reverse, hsnd]
  constructor
  · refine ⟨hrevfilt, ?_⟩
    rw [hrevfilt, List.pairwise_reverse]
    have := markedIdxs_pairwise_lt (fun inst => s.behindCamera inst) m.instances
    exact this.imp (fun h => h)
  · have hfold := cull_fold_meshInstances (s.cullRemovalList.reverse) s mesh_id
    rw [hrevfilt] at hfold
    have hmi : s.meshInstances mesh_id = some m.instances := by
      unfold Scene.meshInstances
      rw [hm]
      rfl
    rw [hmi] at hfold
    unfold Scene.cull_instances_behind_camera
    have hfold2 : ((s.cullRemovalList.reverse.foldl
        (fun acc p => acc.remove_instance p.1 p.2) s)).meshInstances mesh_id
        = some (((markedIdxs (fun inst => s.behindCamera inst) m.instances).reverse).foldl
            swapRemove m.instances) := hfold
    unfold Scene.meshInstances at hfold2
    cases hlk : ((s.cullRemovalList.reverse.foldl
        (fun acc p => acc.remove_instance p.1 p.2) s)).lookupMesh mesh_id with
    | none =>
      rw [hlk] at hfold2
      cases hfold2
    | some m2 =>
      refine ⟨m2, rfl, ?_⟩
      rw [hlk] at hfold2
      have hinst : m2.instances
          = ((markedIdxs (fun inst => s.behindCamera inst) m.instances).reverse).foldl
              swapRemove m.instances := Option.some.inj hfold2
      rw [hinst]
      have hsorted : List.Pairwise (fun a b => a > b)
          ((markedIdxs (fun inst => s.behindCamera inst) m.instances).reverse) := by
        rw [List.pairwise_reverse]
        exact (markedIdxs_pairwise_lt _ _).imp (fun h => h)
      have hbounded : ∀ d ∈ (markedIdxs (fun inst => s.behindCamera inst)
          m.instances).reverse, d < m.instances.length := by
        intro d hd
        exact markedIdxs_bounded _ _ d (List.mem_reverse.mp hd)
      refine (foldl_swapRemove_perm m.instances _ hsorted hbounded).trans ?_
      rw [keepNotIdx_congr _ (markedIdxs (fun inst => s.behindCamera inst) m.instances)
        (fun p => List.mem_reverse) 0 m.instances]
      rw [keepNotIdx_markedIdxs]

/-- Closed witness for `scene_cull_behind_camera_spec` at the concrete
scene `exScene`. -/
theorem scene_cull_behind_camera_spec_witness :
    ((exScene.cullRemovalList.reverse.filter (fun p => p.1 == 7)).map Prod.snd
        = (markedIdxs (fun inst => exScene.behindCamera inst) exMesh2.instances).reverse ∧
      List.Pairwise (fun a b => a > b)
        ((exScene.cullRemovalList.reverse.filter (fun p => p.1 == 7)).map Prod.snd)) ∧
    ∃ m2, exScene.cull_instances_behind_camera.lookupMesh 7 = some m2 ∧
      m2.instances.Perm
        (exMesh2.instances.filter (fun inst => !(exScene.behindCamera inst))) :=
  scene_cull_behind_camera_spec exScene (by decide) 7 exMesh2 rfl

theorem Mesh.update_instance_length (m : Mesh) (i : ℕ) (inst : InstanceRaw) :
    (m.update_instance i inst).instances.length = m.instances.length := by
  unfold Mesh.update_instance
  split <;> simp

theorem Mesh.update_instance_getElem_ne (m : Mesh) (i : ℕ) (inst : InstanceRaw)
    (j : ℕ) (h : j ≠ i) :
    (m.update_instance i inst).instances[j]? = m.instances[j]? := by
  unfold Mesh.update_instance
  split
  · show (m.instances.set i inst)[j]? = _
    rw [List.getElem?_set_ne (fun hc => h hc.symm)]
  · rfl

theorem Mesh.update_instance_getElem_self (m : Mesh) (i : ℕ) (inst : InstanceRaw)
    (h : i < m.instances.length) :
    (m.update_instance i inst).instances[i]? = some inst := by
  unfold Mesh.update_instance
  rw [if_pos h]
  show (m.instances.set i inst)[i]? = some inst
  rw [List.getElem?_set_self h]

theorem lookupA_updateA_isSome {α : Type} (l : List (ℕ × α)) (k k2 : ℕ) (f : α → α) :
    (lookupA (updateA l k f) k2).isSome = (lookupA l k2).isSome := by
  by_cases h : k2 = k
  · subst h
    rw [lookupA_updateA]
    cases lookupA l k2 <;> rfl
  · rw [lookupA_updateA_ne _ _ _ _ h]

/-- The upper-left 3x3 block of a model matrix (`glam::Mat3::from_mat4`),
as a row-indexed Mathlib matrix (`Mat4.c` is column-major). -/
def mat3FromMat4 (m : Mat4) : Matrix (Fin 3) (Fin 3) ℚ :=
  Matrix.of fun i j => m.c j.castSucc i.castSucc

/-- glam's `Mat3::inverse`: the adjugate scaled by the reciprocal determinant
(junk when the determinant is zero, as in the source). -/
def mat3Inverse (A : Matrix (Fin 3) (Fin 3) ℚ) : Matrix (Fin 3) (Fin 3) ℚ :=
  (A.det)⁻¹ • A.adjugate

/-- The record `Scene::update_objects` writes for one tagged body: the body's
homogeneous pose as model matrix and the inverse-transpose of its upper 3x3
block as normal matrix (stored column-major). -/
def instOfPose (pose : Mat4) : InstanceRaw :=
  { model := pose
    normal := ⟨fun j i => (mat3Inverse (mat3FromMat4 pose)).transpose i j⟩ }

/-- One iteration of the `Scene::update_objects` loop: a body with zero
user-data is skipped; otherwise the color-pipeline mesh keyed by the tag's
high 64 bits is looked up (the source unwraps — a missing mesh panics,
modelled as `none`) and the recomputed record is pushed via the
single-instance update at the slot given by the tag's low 64 bits. -/
def Scene.updateObjectsStep (s : Scene) (b : Body) : Option Scene :=
  if b.user_data ≠ 0 then
    match lookupA s.colorMeshes (b.user_data / 2 ^ 64) with
    | none => none
    | some _ =>
      some { s with
        colorMeshes := updateA s.colorMeshes (b.user_data / 2 ^ 64)
          (fun m => m.update_instance (b.user_data % 2 ^ 64) (instOfPose b.pose)) }
  else some s

/-- The `Scene::update_objects` loop over an explicit body list. -/
def updateObjectsAux (s : Scene) (bl : List (ℕ × Body)) : Option Scene :=
  bl.foldl (fun acc hb => acc.bind (fun sc => sc.updateObjectsStep hb.2)) (some s)

/-- `Scene::update_objects`: iterate every body in the physics set. -/
def Scene.update_objects (s : Scene) : Option Scene :=
  updateObjectsAux s s.bodies

theorem updateObjectsAux_none_start (bl : List (ℕ × Body)) :
    bl.foldl (fun acc hb => acc.bind (fun sc => sc.updateObjectsStep hb.2))
      (none : Option Scene) = none := by
  induction bl with
  | nil => rfl
  | cons hb rest ih =>
    rw [List.foldl_cons]
    exact ih

theorem updateObjectsAux_cons (s : Scene) (hb : ℕ × Body) (rest : List (ℕ × Body)) :
    updateObjectsAux s (hb :: rest)
      = (s.updateObjectsStep hb.2).bind (fun s2 => updateObjectsAux s2 rest) := by
  unfold updateObjectsAux
  rw [List.foldl_cons]
  cases hstep : s.updateObjectsStep hb.2 with
  | none =>
    show List.foldl _ ((some s).bind _) rest = none
    rw [show (some s).bind (fun sc => sc.updateObjectsStep hb.2) = none by
      rw [Option.some_bind, hstep]]
    exact updateObjectsAux_none_start rest
  | some s2 =>
    show List.foldl _ ((some s).bind _) rest = _
    rw [show (some s).bind (fun sc => sc.updateObjectsStep hb.2) = some s2 by
      rw [Option.some_bind, hstep]]
    rfl

theorem updateObjectsAux_filter_tagged (s : Scene) (bl : List (ℕ × Body)) :
    updateObjectsAux s bl
      = updateObjectsAux s (bl.filter (fun hb => hb.2.user_data ≠ 0)) := by
  induction bl generalizing s with
  | nil => rfl
  | cons hb rest ih =>
    rw [updateObjectsAux_cons, List.filter_cons]
    by_cases h0 : hb.2.user_data ≠ 0
    · rw [if_pos (by simpa using h0), updateObjectsAux_cons]
      cases hstep : s.updateObjectsStep hb.2 with
      | none => rfl
      | some s2 =>
        show updateObjectsAux s2 rest = _
        exact ih s2
    · rw [if_neg (by simpa using h0)]
      rw [show s.updateObjectsStep hb.2 = some s by
        unfold Scene.updateObjectsStep
        rw [if_neg h0]]
      show updateObjectsAux s rest = _
      exact ih s

theorem update_objects_aux_spec (bl : List (ℕ × Body)) (s : Scene)
    (hpres : ∀ hb ∈ bl, hb.2.user_data ≠ 0 →
      (lookupA s.colorMeshes (hb.2.user_data / 2 ^ 64)).isSome = true)
    (hdist : List.Pairwise (fun a b : ℕ × Body =>
      a.2.user_data ≠ 0 → b.2.user_data ≠ 0 → a.2.user_data ≠ b.2.user_data) bl) :
    ∃ s2, updateObjectsAux s bl = some s2 ∧
      s2.bodies = s.bodies ∧ s2.objects = s.objects ∧ s2.colliders = s.colliders ∧
      s2.textureMeshes = s.textureMeshes ∧
      (∀ k mesh, lookupA s.colorMeshes k = some mesh →
        ∃ mesh2, lookupA s2.colorMeshes k = some mesh2 ∧
          mesh2.instances.length = mesh.instances.length ∧
          ∀ slot, (∀ hb ∈ bl, hb.2.user_data ≠ 0 →
              ¬(hb.2.user_data / 2 ^ 64 = k ∧ hb.2.user_data % 2 ^ 64 = slot)) →
            mesh2.instances[slot]? = mesh.instances[slot]?) ∧
      (∀ hb ∈ bl, hb.2.user_data ≠ 0 →
        ∀ mesh, lookupA s.colorMeshes (hb.2.user_data / 2 ^ 64) = some mesh →
          ∃ mesh2, lookupA s2.colorMeshes (hb.2.user_data / 2 ^ 64) = some mesh2 ∧
            (hb.2.user_data % 2 ^ 64 < mesh.instances.length →
              mesh2.instances[hb.2.user_data % 2 ^ 64]?
                = some (instOfPose hb.2.pose))) := by
  induction bl generalizing s with
  | nil =>
    exact ⟨s, rfl, rfl, rfl, rfl, rfl,
      fun k mesh hm => ⟨mesh, hm, rfl, fun _ _ => rfl⟩,
      fun hb hmem => absurd hmem (List.not_mem_nil hb)⟩
  | cons hb0 rest ih =>
    have hdist2 := List.pairwise_cons.mp hdist
    by_cases h0 : hb0.2.user_data ≠ 0
    · have hps := hpres hb0 (List.mem_cons_self hb0 rest) h0
      obtain ⟨mesh0, hm0⟩ := Option.isSome_iff_exists.mp hps
      have hstep : s.updateObjectsStep hb0.2 = some
          { s with
            colorMeshes := updateA s.colorMeshes (hb0.2.user_data / 2 ^ 64)
              (fun m => m.update_instance (hb0.2.user_data % 2 ^ 64)
                (instOfPose hb0.2.pose)) } := by
        unfold Scene.updateObjectsStep
        rw [if_pos h0, hm0]
      rw [updateObjectsAux_cons, hstep, Option.some_bind]
      have hpres1 : ∀ b ∈ rest, b.2.user_data ≠ 0 →
          (lookupA ({ s with
            colorMeshes := updateA s.colorMeshes (hb0.2.user_data / 2 ^ 64)
              (fun m => m.update_instance (hb0.2.user_data % 2 ^ 64)
                (instOfPose hb0.2.pose)) } : Scene).colorMeshes
            (b.2.user_data / 2 ^ 64)).isSome = true := by
        intro b hbm ht
        dsimp only
        rw [lookupA_updateA_isSome]
        exact hpres b (List.mem_cons_of_mem _ hbm) ht
      obtain ⟨s2, haux, hbod, hobj, hcol, htex, hlen, hmain⟩ := ih _ hpres1 hdist2.2
      refine ⟨s2, haux, hbod, hobj, hcol, htex, ?_, ?_⟩
      · intro k mesh hm
        by_cases hkk : k = hb0.2.user_data / 2 ^ 64
        · have hmesh0 : mesh0 = mesh := by
            rw [← hkk] at hm0
            rw [hm0] at hm
            exact Option.some.inj hm
          have hm1 : lookupA (updateA s.colorMeshes (hb0.2.user_data / 2 ^ 64)
              (fun m => m.update_instance (hb0.2.user_data % 2 ^ 64)
                (instOfPose hb0.2.pose))) k
              = some (mesh.update_instance (hb0.2.user_data % 2 ^ 64)
                  (instOfPose hb0.2.pose)) := by
            rw [hkk, lookupA_updateA, hm0, hmesh0]
            rfl
          obtain ⟨mesh2, h1, h2, h3⟩ := hlen k _ hm1
          refine ⟨mesh2, h1, ?_, ?_⟩
          · rw [h2, Mesh.update_instance_length]
          · intro slot hcond
            have hslotne : hb0.2.user_data % 2 ^ 64 ≠ slot := by
              intro hc
              exact hcond hb0 (List.mem_cons_self hb0 rest) h0 ⟨hkk.symm, hc⟩
            rw [h3 slot (fun b hbm htag => hcond b (List.mem_cons_of_mem _ hbm) htag),
              Mesh.update_instance_getElem_ne _ _ _ _ (fun hc => hslotne hc.symm)]
        · have hm1 : lookupA (updateA s.colorMeshes (hb0.2.user_data / 2 ^ 64)
              (fun m => m.update_instance (hb0.2.user_data % 2 ^ 64)
                (instOfPose hb0.2.pose))) k = some mesh := by
            rw [lookupA_updateA_ne _ _ _ _ hkk]
            exact hm
          obtain ⟨mesh2, h1, h2, h3⟩ := hlen k mesh hm1
          exact ⟨mesh2, h1, h2, fun slot hcond =>
            h3 slot (fun b hbm htag => hcond b (List.mem_cons_of_mem _ hbm) htag)⟩
      · intro b hbm htag mesh hm
        rcases List.mem_cons.mp hbm with hbe | hbr
        · subst hbe
          have hm1 : lookupA (updateA s.colorMeshes (b.2.user_data / 2 ^ 64)
              (fun m => m.update_instance (b.2.user_data % 2 ^ 64)
                (instOfPose b.2.pose))) (b.2.user_data / 2 ^ 64)
              = some (mesh.update_instance (b.2.user_data % 2 ^ 64)
                  (instOfPose b.2.pose)) := by
            rw [lookupA_updateA, hm]
            rfl
          obtain ⟨mesh2, h1, h2, h3⟩ := hlen _ _ hm1
          refine ⟨mesh2, h1, ?_⟩
          intro hslotlt
          have hcond : ∀ b2 ∈ rest, b2.2.user_data ≠ 0 →
              ¬(b2.2.user_data / 2 ^ 64 = b.2.user_data / 2 ^ 64 ∧
                b2.2.user_data % 2 ^ 64 = b.2.user_data % 2 ^ 64) := by
            intro b2 hb2 ht2 hcc
            have hne := hdist2.1 b2 hb2 h0 ht2
            have e1 := Nat.div_add_mod b.2.user_data (2 ^ 64)
            have e2 := Nat.div_add_mod b2.2.user_data (2 ^ 64)
            omega
          rw [h3 _ hcond, Mesh.update_instance_getElem_self _ _ _ hslotlt]
        · by_cases hbk : b.2.user_data / 2 ^ 64 = hb0.2.user_data / 2 ^ 64
          · have hmesh0 : mesh0 = mesh := by
              rw [← hbk] at hm0
              rw [hm0] at hm
              exact Option.some.inj hm
            have hm1 : lookupA (updateA s.colorMeshes (hb0.2.user_data / 2 ^ 64)
                (fun m => m.update_instance (hb0.2.user_data % 2 ^ 64)
                  (instOfPose hb0.2.pose))) (b.2.user_data / 2 ^ 64)
                = some (mesh.update_instance (hb0.2.user_data % 2 ^ 64)
                    (instOfPose hb0.2.pose)) := by
              rw [hbk, lookupA_updateA, hm0, hmesh0]
              rfl
            obtain ⟨mesh2, h1, h2⟩ := hmain b hbr htag _ hm1
            refine ⟨mesh2, h1, ?_⟩
            intro hlt
            apply h2
            rw [Mesh.update_instance_length]
            exact hlt
          · have hm1 : lookupA (updateA s.colorMeshes (hb0.2.user_data / 2 ^ 64)
                (fun m => m.update_instance (hb0.2.user_data % 2 ^ 64)
                  (instOfPose hb0.2.pose))) (b.2.user_data / 2 ^ 64)
                = some mesh := by
              rw [lookupA_updateA_ne _ _ _ _ hbk]
              exact hm
            exact hmain b hbr htag mesh hm1
    · rw [updateObjectsAux_cons,
        show s.updateObjectsStep hb0.2 = some s by
          unfold Scene.updateObjectsStep
          rw [if_neg h0],
        Option.some_bind]
      obtain ⟨s2, haux, hbod, hobj, hcol, htex, hlen, hmain⟩ :=
        ih s (fun b hbm ht => hpres b (List.mem_cons_of_mem _ hbm) ht) hdist2.2
      refine ⟨s2, haux, hbod, hobj, hcol, htex, ?_, ?_⟩
      · intro k mesh hm
        obtain ⟨mesh2, h1, h2, h3⟩ := hlen k mesh hm
        exact ⟨mesh2, h1, h2, fun slot hcond =>
          h3 slot (fun b hbm htag => hcond b (List.mem_cons_of_mem _ hbm) htag)⟩
      · intro b hbm htag mesh hm
        rcases List.mem_cons.mp hbm with hbe | hbr
        · exact absurd htag (by rw [hbe]; simpa using h0)
        · exact hmain b hbr htag mesh hm

/-- C7: the per-frame sync skips exactly the zero-tagged bodies (running the
loop only over the tagged bodies gives the same result), and for every body
with a nonzero user-data tag it writes the record recomputed from the body's
pose (pose as model matrix, inverse-transpose of its upper 3x3 as normal
matrix) into the color-pipeline mesh keyed by the tag's high 64 bits at the
live slot given by the tag's low 64 bits, via the single-instance update;
meshes and slots targeted by no tagged body are unchanged, and the physics
state is untouched.  Hypotheses: every tagged body's mesh key resolves (the
source unwraps the lookup) and tagged bodies carry distinct tags. -/
theorem scene_update_objects_sync_spec (s : Scene)
    (hpres : ∀ hb ∈ s.bodies, hb.2.user_data ≠ 0 →
      (lookupA s.colorMeshes (hb.2.user_data / 2 ^ 64)).isSome = true)
    (hdist : List.Pairwise (fun a b : ℕ × Body =>
      a.2.user_data ≠ 0 → b.2.user_data ≠ 0 → a.2.user_data ≠ b.2.user_data)
      s.bodies) :
    s.update_objects
        = updateObjectsAux s (s.bodies.filter (fun hb => hb.2.user_data ≠ 0)) ∧
    ∃ s2, s.update_objects = some s2 ∧
      s2.bodies = s.bodies ∧ s2.objects = s.objects ∧ s2.colliders = s.colliders ∧
      s2.textureMeshes = s.textureMeshes ∧
      (∀ hb ∈ s.bodies, hb.2.user_data ≠ 0 →
        ∀ mesh, lookupA s.colorMeshes (hb.2.user_data / 2 ^ 64) = some mesh →
          ∃ mesh2, lookupA s2.colorMeshes (hb.2.user_data / 2 ^ 64) = some mesh2 ∧
            (hb.2.user_data % 2 ^ 64 < mesh.instances.length →
              mesh2.instances[hb.2.user_data % 2 ^ 64]?
                = some (instOfPose hb.2.pose))) ∧
      (∀ k mesh, lookupA s.colorMeshes k = some mesh →
        ∃ mesh2, lookupA s2.colorMeshes k = some mesh2 ∧
          mesh2.instances.length = mesh.instances.length ∧
          ∀ slot, (∀ hb ∈ s.bodies, hb.2.user_data ≠ 0 →
              ¬(hb.2.user_data / 2 ^ 64 = k ∧ hb.2.user_data % 2 ^ 64 = slot)) →
            mesh2.instances[slot]? = mesh.instances[slot]?) := by
  refine ⟨updateObjectsAux_filter_tagged s s.bodies, ?_⟩
  obtain ⟨s2, haux, h1, h2, h3, h4, hlen, hmain⟩ :=
    update_objects_aux_spec s.bodies s hpres hdist
  exact ⟨s2, haux, h1, h2, h3, h4, hmain, hlen⟩

/-- Closed witness for `scene_update_objects_sync_spec` at the concrete scene
`exScene`, whose two bodies are tagged with the composite ids of mesh 7. -/
theorem scene_update_objects_sync_spec_witness :
    exScene.update_objects
        = updateObjectsAux exScene
            (exScene.bodies.filter (fun hb => hb.2.user_data ≠ 0)) ∧
    ∃ s2, exScene.update_objects = some s2 ∧
      s2.bodies = exScene.bodies ∧ s2.objects = exScene.objects ∧
      s2.colliders = exScene.colliders ∧
      s2.textureMeshes = exScene.textureMeshes ∧
      (∀ hb ∈ exScene.bodies, hb.2.user_data ≠ 0 →
        ∀ mesh, lookupA exScene.colorMeshes (hb.2.user_data / 2 ^ 64) = some mesh →
          ∃ mesh2, lookupA s2.colorMeshes (hb.2.user_data / 2 ^ 64) = some mesh2 ∧
            (hb.2.user_data % 2 ^ 64 < mesh.instances.length →
              mesh2.instances[hb.2.user_data % 2 ^ 64]?
                = some (instOfPose hb.2.pose))) ∧
      (∀ k mesh, lookupA exScene.colorMeshes k = some mesh →
        ∃ mesh2, lookupA s2.colorMeshes k = some mesh2 ∧
          mesh2.instances.length = mesh.instances.length ∧
          ∀ slot, (∀ hb ∈ exScene.bodies, hb.2.user_data ≠ 0 →
              ¬(hb.2.user_data / 2 ^ 64 = k ∧ hb.2.user_data % 2 ^ 64 = slot)) →
            mesh2.instances[slot]? = mesh.instances[slot]?) :=
  scene_update_objects_sync_spec exScene (by decide) (by decide)

/-- A 3-vector over the reals, idealizing glam's `f32` `Vec3` for the
smooth-normal synthesis. -/
structure V3 where
  x : ℝ
  y : ℝ
  z : ℝ

theorem V3.ext3 (a b : V3) (hx : a.x = b.x) (hy : a.y = b.y) (hz : a.z = b.z) :
    a = b := by
  cases a
  cases b
  simp_all

/-- `Vec3::ZERO`. -/
def V3.zero : V3 := ⟨0, 0, 0⟩

/-- Componentwise addition (`+=` accumulation in the source). -/
def V3.add (a b : V3) : V3 := ⟨a.x + b.x, a.y + b.y, a.z + b.z⟩

/-- Componentwise subtraction (edge vectors). -/
def V3.sub (a b : V3) : V3 := ⟨a.x - b.x, a.y - b.y, a.z - b.z⟩

/-- Scalar multiple. -/
def V3.smul (c : ℝ) (a : V3) : V3 := ⟨c * a.x, c * a.y, c * a.z⟩

/-- `Vec3::cross`. -/
def V3.cross (a b : V3) : V3 :=
  ⟨a.y * b.z - a.z * b.y, a.z * b.x - a.x * b.z, a.x * b.y - a.y * b.x⟩

/-- `Vec3::dot`. -/
def V3.dot (a b : V3) : ℝ := a.x * b.x + a.y * b.y + a.z * b.z

/-- Euclidean length. -/
noncomputable def V3.norm (a : V3) : ℝ := Real.sqrt (a.dot a)

/-- `Vec3::normalize`: the vector scaled by the reciprocal of its length.
Real-number junk convention: the zero vector maps to zero (glam produces
non-finite values there; the claims only constrain nonzero inputs). -/
noncomputable def V3.normalize (a : V3) : V3 := V3.smul (a.norm)⁻¹ a

theorem V3.add_assoc3 (a b c : V3) : (a.add b).add c = a.add (b.add c) := by
  apply V3.ext3 <;> simp [V3.add] <;> ring

theorem V3.add_comm3 (a b : V3) : a.add b = b.add a := by
  apply V3.ext3 <;> simp [V3.add] <;> ring

theorem V3.add_zero3 (a : V3) : a.add V3.zero = a := by
  apply V3.ext3 <;> simp [V3.add, V3.zero]

/-- `indices.chunks_exact(3)`: the complete index triples, in order; a
trailing remainder of fewer than three indices is ignored. -/
def triples : List ℕ → List (ℕ × ℕ × ℕ)
  | a :: b :: c :: rest => (a, b, c) :: triples rest
  | _ => []

/-- The number of occurrences of vertex `v` in one triple (a degenerate
triangle can mention a vertex more than once; the source then accumulates
that triangle's normal into the vertex that many times). -/
def tripleCount (v : ℕ) (t : ℕ × ℕ × ℕ) : ℕ :=
  (if t.1 = v then 1 else 0) + (if t.2.1 = v then 1 else 0) + (if t.2.2 = v then 1 else 0)

/-- The (normalized) face normal of one triangle:
`(positions[b] - positions[a]).cross(positions[c] - positions[a]).normalize()`. -/
noncomputable def faceNormal (positions : List V3) (t : ℕ × ℕ × ℕ) : V3 :=
  (V3.cross (V3.sub (positions.getD t.2.1 V3.zero) (positions.getD t.1 V3.zero))
            (V3.sub (positions.getD t.2.2 V3.zero) (positions.getD t.1 V3.zero))).normalize

/-- The loop body of `Renderer::compute_normals`: accumulate the triangle's
unit face normal into its three vertices, sequentially. -/
noncomputable def accumStep (positions : List V3) (ns : List V3) (t : ℕ × ℕ × ℕ) :
    List V3 :=
  let n := faceNormal positions t
  let ns1 := ns.set t.1 ((ns.getD t.1 V3.zero).add n)
  let ns2 := ns1.set t.2.1 ((ns1.getD t.2.1 V3.zero).add n)
  ns2.set t.2.2 ((ns2.getD t.2.2 V3.zero).add n)

/-- `Renderer::compute_normals` (src/renderer/mod.rs): start from a zero
vector per vertex, accumulate unit face normals over every complete index
triple, then normalize every per-vertex sum. -/
noncomputable def compute_normals (positions : List V3) (indices : List ℕ) : List V3 :=
  ((triples indices).foldl (accumStep positions)
    (List.replicate positions.length V3.zero)).map V3.normalize

/-- Sum of a list of vectors. -/
def vsum (l : List V3) : V3 := l.foldr V3.add V3.zero

/-- The claim-side accumulated per-vertex sum: over all triangles, the unit
face normal weighted by how often the triangle mentions the vertex. -/
noncomputable def accumNormal (positions : List V3) (indices : List ℕ) (v : ℕ) : V3 :=
  vsum ((triples indices).map
    (fun t => V3.smul (tripleCount v t : ℝ) (faceNormal positions t)))

theorem vsum_perm (l l2 : List V3) (h : l.Perm l2) : vsum l = vsum l2 := by
  induction h with
  | nil => rfl
  | cons a _ ih =>
    show V3.add a (vsum _) = V3.add a (vsum _)
    rw [ih]
  | swap a b l =>
    show V3.add b (V3.add a (vsum l)) = V3.add a (V3.add b (vsum l))
    rw [← V3.add_assoc3, ← V3.add_assoc3, V3.add_comm3 b a]
  | trans _ _ ih1 ih2 => rw [ih1, ih2]

theorem getD_set_lt {α : Type} (l : List α) (i : ℕ) (x d : α) (j : ℕ)
    (hi : i < l.length) :
    (l.set i x).getD j d = if j = i then x else l.getD j d := by
  by_cases hj : j = i
  · subst hj
    rw [if_pos rfl, List.getD_eq_getElem?_getD, List.getElem?_set_self hi]
    rfl
  · rw [if_neg hj, List.getD_eq_getElem?_getD, List.getElem?_set_ne (fun hc => hj hc.symm),
      List.getD_eq_getElem?_getD]

theorem V3.zero_add3 (a : V3) : V3.zero.add a = a := by
  apply V3.ext3 <;> simp [V3.add, V3.zero]

theorem accumStep_length (positions : List V3) (ns : List V3) (t : ℕ × ℕ × ℕ) :
    (accumStep positions ns t).length = ns.length := by
  unfold accumStep
  simp

theorem accumStep_getD (positions : List V3) (ns : List V3) (a b c v : ℕ)
    (ha : a < ns.length) (hb : b < ns.length) (hc : c < ns.length) :
    (accumStep positions ns (a, b, c)).getD v V3.zero
      = (ns.getD v V3.zero).add
          (V3.smul (tripleCount v (a, b, c) : ℝ) (faceNormal positions (a, b, c))) := by
  unfold accumStep
  dsimp only
  rw [getD_set_lt _ _ _ _ v (by simpa using hc)]
  rw [getD_set_lt _ _ _ _ c (by simpa using hb), getD_set_lt _ _ _ _ v (by simpa using hb)]
  rw [getD_set_lt _ _ _ _ b ha, getD_set_lt _ _ _ _ c ha, getD_set_lt _ _ _ _ v ha]
  unfold tripleCount
  dsimp only
  split_ifs <;>
    first
      | (exfalso; omega)
      | (subst_vars
         apply V3.ext3 <;> simp [V3.add, V3.smul] <;> push_cast <;> ring)

theorem foldl_accumStep_spec (positions : List V3) (ts : List (ℕ × ℕ × ℕ))
    (ns : List V3) (v : ℕ)
    (hlen : ∀ t ∈ ts, t.1 < ns.length ∧ t.2.1 < ns.length ∧ t.2.2 < ns.length) :
    (ts.foldl (accumStep positions) ns).length = ns.length ∧
    (ts.foldl (accumStep positions) ns).getD v V3.zero
      = (ns.getD v V3.zero).add
          (vsum (ts.map (fun t => V3.smul (tripleCount v t : ℝ)
            (faceNormal positions t)))) := by
  induction ts generalizing ns with
  | nil =>
    refine ⟨rfl, ?_⟩
    rw [List.foldl_nil]
    show _ = (ns.getD v V3.zero).add V3.zero
    rw [V3.add_zero3]
  | cons t rest ih =>
    obtain ⟨a, b, c⟩ := t
    have hm := hlen (a, b, c) (List.mem_cons_self _ _)
    have hstep := accumStep_getD positions ns a b c v hm.1 hm.2.1 hm.2.2
    have hsl := accumStep_length positions ns (a, b, c)
    have hlen2 : ∀ t2 ∈ rest, t2.1 < (accumStep positions ns (a, b, c)).length ∧
        t2.2.1 < (accumStep positions ns (a, b, c)).length ∧
        t2.2.2 < (accumStep positions ns (a, b, c)).length := by
      intro t2 ht2
      rw [hsl]
      exact hlen t2 (List.mem_cons_of_mem _ ht2)
    obtain ⟨ihl, ihv⟩ := ih (accumStep positions ns (a, b, c)) hlen2
    rw [List.foldl_cons]
    refine ⟨by rw [ihl, hsl], ?_⟩
    rw [ihv, hstep, List.map_cons]
    show _ = (ns.getD v V3.zero).add (V3.add _ (vsum _))
    rw [V3.add_assoc3]

theorem mem_triples (idx : List ℕ) (t : ℕ × ℕ × ℕ) (h : t ∈ triples idx) :
    t.1 ∈ idx ∧ t.2.1 ∈ idx ∧ t.2.2 ∈ idx := by
  induction idx using triples.induct with
  | case1 a b c rest ih =>
    rw [triples] at h
    rcases List.mem_cons.mp h with he | hr
    · subst he
      refine ⟨List.mem_cons_self _ _, ?_, ?_⟩
      · exact List.mem_cons_of_mem _ (List.mem_cons_self _ _)
      · exact List.mem_cons_of_mem _ (List.mem_cons_of_mem _ (List.mem_cons_self _ _))
    · have := ih hr
      exact ⟨List.mem_cons_of_mem _ (List.mem_cons_of_mem _ (List.mem_cons_of_mem _ this.1)),
        List.mem_cons_of_mem _ (List.mem_cons_of_mem _ (List.mem_cons_of_mem _ this.2.1)),
        List.mem_cons_of_mem _ (List.mem_cons_of_mem _ (List.mem_cons_of_mem _ this.2.2))⟩
  | case2 l hnot =>
    rw [triples] at h
    · cases h
    · exact hnot

theorem getD_replicate_zero (n v : ℕ) :
    (List.replicate n V3.zero).getD v V3.zero = V3.zero := by
  rw [List.getD_eq_getElem?_getD, List.getElem?_replicate]
  split <;> rfl

theorem getD_map_normalize (l : List V3) (v : ℕ) (hv : v < l.length) :
    (l.map V3.normalize).getD v V3.zero = V3.normalize (l.getD v V3.zero) := by
  rw [List.getD_eq_getElem?_getD, List.getElem?_map]
  cases h : l[v]? with
  | none =>
    exfalso
    rw [List.getElem?_eq_none_iff] at h
    omega
  | some x =>
    rw [List.getD_eq_getElem?_getD, h]
    rfl

theorem V3.dot_smul_self (c : ℝ) (a : V3) :
    (V3.smul c a).dot (V3.smul c a) = c ^ 2 * a.dot a := by
  unfold V3.smul V3.dot
  ring

theorem V3.norm_nonneg3 (a : V3) : 0 ≤ a.norm := Real.sqrt_nonneg _

theorem V3.dot_self_pos (a : V3) (h : a ≠ V3.zero) : 0 < a.dot a := by
  have hx := mul_self_nonneg a.x
  have hy := mul_self_nonneg a.y
  have hz := mul_self_nonneg a.z
  rcases lt_or_eq_of_le (by unfold V3.dot; positivity : (0:ℝ) ≤ a.dot a) with hp | he
  · exact hp
  · exfalso
    apply h
    have hsum : a.x * a.x + a.y * a.y + a.z * a.z = 0 := by
      unfold V3.dot at he
      linarith
    have hxx : a.x * a.x = 0 := by linarith
    have hyy : a.y * a.y = 0 := by linarith
    have hzz : a.z * a.z = 0 := by linarith
    apply V3.ext3 <;> simp [V3.zero]
    · exact mul_self_eq_zero.mp hxx
    · exact mul_self_eq_zero.mp hyy
    · exact mul_self_eq_zero.mp hzz

theorem V3.norm_smul3 (c : ℝ) (a : V3) : (V3.smul c a).norm = |c| * a.norm := by
  unfold V3.norm
  rw [V3.dot_smul_self, Real.sqrt_mul (sq_nonneg c), Real.sqrt_sq_eq_abs]

theorem V3.norm_pos_of_ne (a : V3) (h : a ≠ V3.zero) : 0 < a.norm :=
  Real.sqrt_pos.mpr (V3.dot_self_pos a h)

theorem V3.norm_normalize (a : V3) (h : a ≠ V3.zero) : a.normalize.norm = 1 := by
  unfold V3.normalize
  rw [V3.norm_smul3, abs_of_nonneg (inv_nonneg.mpr (V3.norm_nonneg3 a)),
    inv_mul_cancel₀ (ne_of_gt (V3.norm_pos_of_ne a h))]

/-- C9: with in-range indices and no authored normals, the synthesized
per-vertex normal at each vertex is the normalization of the sum, over that
vertex's incident triangles (counted with multiplicity), of the triangle's
normalized face cross-product contribution; the result is invariant under
permutation of the triangle list; and each resulting normal has unit length
whenever the accumulated sum is nonzero. -/
theorem compute_normals_spec (positions : List V3) (indices indices2 : List ℕ)
    (hidx : ∀ i ∈ indices, i < positions.length) :
    (compute_normals positions indices).length = positions.length ∧
    (∀ v, v < positions.length →
      (compute_normals positions indices).getD v V3.zero
        = (accumNormal positions indices v).normalize) ∧
    ((triples indices2).Perm (triples indices) →
      (∀ i ∈ indices2, i < positions.length) →
      ∀ v, v < positions.length →
        (compute_normals positions indices2).getD v V3.zero
          = (compute_normals positions indices).getD v V3.zero) ∧
    (∀ v, v < positions.length → accumNormal positions indices v ≠ V3.zero →
      ((compute_normals positions indices).getD v V3.zero).norm = 1) := by
  have hchar : ∀ (idx : List ℕ), (∀ i ∈ idx, i < positions.length) →
      (compute_normals positions idx).length = positions.length ∧
      ∀ v, v < positions.length →
        (compute_normals positions idx).getD v V3.zero
          = (accumNormal positions idx v).normalize := by
    intro idx hi
    have hlen : ∀ t ∈ triples idx,
        t.1 < (List.replicate positions.length V3.zero).length ∧
        t.2.1 < (List.replicate positions.length V3.zero).length ∧
        t.2.2 < (List.replicate positions.length V3.zero).length := by
      intro t ht
      have hmt := mem_triples idx t ht
      simp only [List.length_replicate]
      exact ⟨hi _ hmt.1, hi _ hmt.2.1, hi _ hmt.2.2⟩
    constructor
    · unfold compute_normals
      rw [List.length_map,
        (foldl_accumStep_spec positions (triples idx) _ 0 hlen).1,
        List.length_replicate]
    · intro v hv
      unfold compute_normals
      have hf := foldl_accumStep_spec positions (triples idx) _ v hlen
      rw [getD_map_normalize _ v (by rw [hf.1, List.length_replicate]; exact hv),
        hf.2, getD_replicate_zero, V3.zero_add3]
      rfl
  obtain ⟨hl, hv⟩ := hchar indices hidx
  refine ⟨hl, hv, ?_, ?_⟩
  · intro hperm hidx2 v hvlt
    obtain ⟨hl2, hv2⟩ := hchar indices2 hidx2
    rw [hv2 v hvlt, hv v hvlt]
    unfold accumNormal
    rw [vsum_perm _ _ (hperm.map _)]
  · intro v hvlt hne
    rw [hv v hvlt]
    exact V3.norm_normalize _ hne

/-- Concrete right-triangle vertex list for the C9 witness. -/
noncomputable def exPositions : List V3 := [⟨0, 0, 0⟩, ⟨1, 0, 0⟩, ⟨0, 1, 0⟩]

/-- Closed witness for `compute_normals_spec` at one concrete triangle. -/
theorem compute_normals_spec_witness :
    (compute_normals exPositions [0, 1, 2]).length = exPositions.length ∧
    (∀ v, v < exPositions.length →
      (compute_normals exPositions [0, 1, 2]).getD v V3.zero
        = (accumNormal exPositions [0, 1, 2] v).normalize) ∧
    ((triples [2, 0, 1]).Perm (triples [0, 1, 2]) →
      (∀ i ∈ ([2, 0, 1] : List ℕ), i < exPositions.length) →
      ∀ v, v < exPositions.length →
        (compute_normals exPositions [2, 0, 1]).getD v V3.zero
          = (compute_normals exPositions [0, 1, 2]).getD v V3.zero) ∧
    (∀ v, v < exPositions.length → accumNormal exPositions [0, 1, 2] v ≠ V3.zero →
      ((compute_normals exPositions [0, 1, 2]).getD v V3.zero).norm = 1) :=
  compute_normals_spec exPositions [0, 1, 2] [2, 0, 1]
    (by intro i hi; simp only [exPositions, List.length_cons, List.length_nil]; simp at hi; omega)

/-! ## Collider winding flip (src/scene.rs, `Scene::add_gltf` physics loop) -/

/-- 3x3 determinant by cofactor expansion along the first row. -/
def det3 (a b c d e f g h i : ℚ) : ℚ :=
  a * (e * i - f * h) - b * (d * i - f * g) + c * (d * h - e * g)

/-- `glam::Mat4::determinant` for the column-major model matrix: cofactor
expansion along the first row of entries `a i j = m.c j i` (row `i`,
column `j`). -/
def Mat4.det (m : Mat4) : ℚ :=
  m.c 0 0 * det3 (m.c 1 1) (m.c 2 1) (m.c 3 1)
                 (m.c 1 2) (m.c 2 2) (m.c 3 2)
                 (m.c 1 3) (m.c 2 3) (m.c 3 3)
  - m.c 1 0 * det3 (m.c 0 1) (m.c 2 1) (m.c 3 1)
                   (m.c 0 2) (m.c 2 2) (m.c 3 2)
                   (m.c 0 3) (m.c 2 3) (m.c 3 3)
  + m.c 2 0 * det3 (m.c 0 1) (m.c 1 1) (m.c 3 1)
                   (m.c 0 2) (m.c 1 2) (m.c 3 2)
                   (m.c 0 3) (m.c 1 3) (m.c 3 3)
  - m.c 3 0 * det3 (m.c 0 1) (m.c 1 1) (m.c 2 1)
                   (m.c 0 2) (m.c 1 2) (m.c 2 2)
                   (m.c 0 3) (m.c 1 3) (m.c 2 3)

/-- `for chunk in final_indices.chunks_exact_mut(3) { chunk.swap(1, 2); }`:
swap the second and third entry of every complete run of three, leaving the
final incomplete run (fewer than three leftover entries) untouched. -/
def swapTriples : List ℕ → List ℕ
  | a :: b :: c :: rest => a :: c :: b :: swapTriples rest
  | rest => rest

/-- The triangle index list handed to `ColliderBuilder::trimesh` for one
collider-mesh instance (src/scene.rs lines 152-163): the mesh's recorded
index list, winding-flipped when the instance's model matrix has negative
determinant. -/
def colliderIndices (model : Mat4) (indices : List ℕ) : List ℕ :=
  if model.det < 0 then swapTriples indices else indices

theorem swapTriples_spec (l : List ℕ) :
    (swapTriples l).length = l.length ∧
    (∀ k, 3 * k + 2 < l.length →
      (swapTriples l).getD (3 * k) 0 = l.getD (3 * k) 0 ∧
      (swapTriples l).getD (3 * k + 1) 0 = l.getD (3 * k + 2) 0 ∧
      (swapTriples l).getD (3 * k + 2) 0 = l.getD (3 * k + 1) 0) ∧
    (∀ j, l.length / 3 * 3 ≤ j → (swapTriples l).getD j 0 = l.getD j 0) := by
  induction l using swapTriples.induct with
  | case1 a b c rest ih =>
    obtain ⟨ihlen, ihtri, ihtail⟩ := ih
    have hstep : swapTriples (a :: b :: c :: rest) = a :: c :: b :: swapTriples rest := by
      rfl
    refine ⟨?_, ?_, ?_⟩
    · simp [hstep, ihlen]
    · intro k hk
      cases k with
      | zero => simp [hstep, List.getD]
      | succ k =>
        have h1 : 3 * (k + 1) = 3 * k + 1 + 1 + 1 := by ring
        have h2 : 3 * (k + 1) + 1 = 3 * k + 1 + 1 + 1 + 1 := by ring
        have h3 : 3 * (k + 1) + 2 = 3 * k + 2 + 1 + 1 + 1 := by omega
        have hk' : 3 * k + 2 < rest.length := by
          simp only [List.length_cons] at hk; omega
        have htri := ihtri k hk'
        refine ⟨?_, ?_, ?_⟩
        · rw [hstep, h1]
          simpa only [List.getD_cons_succ] using htri.1
        · rw [hstep, h2, show 3 * (k + 1) + 2 = 3 * k + 2 + 1 + 1 + 1 from by omega]
          simpa only [List.getD_cons_succ] using htri.2.1
        · rw [hstep, h3, show 3 * (k + 1) + 1 = 3 * k + 1 + 1 + 1 + 1 from by omega]
          simpa only [List.getD_cons_succ] using htri.2.2
    · intro j hj
      have hdiv : (rest.length + 3) / 3 = rest.length / 3 + 1 :=
        Nat.add_div_right _ (by norm_num)
      simp only [List.length_cons] at hj
      have hlen3 : rest.length + 1 + 1 + 1 = rest.length + 3 := by omega
      rw [hlen3, hdiv] at hj
      have hj3 : 3 ≤ j := by omega
      obtain ⟨j', rfl⟩ : ∃ j', j = j' + 1 + 1 + 1 := ⟨j - 3, by omega⟩
      rw [hstep]
      simp only [List.getD_cons_succ]
      exact ihtail j' (by omega)
  | case2 rest h =>
    have hstep : swapTriples rest = rest := by
      cases rest with
      | nil => rfl
      | cons a t =>
        cases t with
        | nil => rfl
        | cons b t' =>
          cases t' with
          | nil => rfl
          | cons c t'' => exact absurd rfl (h a b c t'')
    refine ⟨by rw [hstep], ?_, fun j _ => by rw [hstep]⟩
    intro k hk
    have hlen : rest.length ≤ 2 := by
      cases rest with
      | nil => simp
      | cons a t =>
        cases t with
        | nil => simp
        | cons b t' =>
          cases t' with
          | nil => simp
          | cons c t'' => exact absurd rfl (h a b c t'')
    exact absurd hk (by omega)

/-- C6: during bulk static population, a collider-mesh instance whose model
matrix has negative determinant gets the mesh's recorded index list with
positions 1 and 2 of every complete consecutive triple swapped (leftover
indices past the last complete triple are unchanged, and the length is
preserved); an instance with non-negative determinant uses the index list
unchanged. -/
theorem collider_winding_flip_spec (model : Mat4) (indices : List ℕ) :
    (model.det < 0 →
      (colliderIndices model indices).length = indices.length ∧
      (∀ k, 3 * k + 2 < indices.length →
        (colliderIndices model indices).getD (3 * k) 0 = indices.getD (3 * k) 0 ∧
        (colliderIndices model indices).getD (3 * k + 1) 0
          = indices.getD (3 * k + 2) 0 ∧
        (colliderIndices model indices).getD (3 * k + 2) 0
          = indices.getD (3 * k + 1) 0) ∧
      (∀ j, indices.length / 3 * 3 ≤ j →
        (colliderIndices model indices).getD j 0 = indices.getD j 0)) ∧
    (0 ≤ model.det → colliderIndices model indices = indices) := by
  constructor
  · intro hdet
    unfold colliderIndices
    rw [if_pos hdet]
    exact swapTriples_spec indices
  · intro hdet
    unfold colliderIndices
    rw [if_neg (not_lt.mpr hdet)]

/-- Mirrored model matrix for the C6 witness: `diag(-1, 1, 1, 1)`,
determinant `-1`. -/
def exNegMat : Mat4 :=
  ⟨fun j i => if j = i then (if j = 0 then -1 else 1) else 0⟩

/-- Closed witness for `collider_winding_flip_spec`: the mirrored matrix
swaps the middle pair of the one complete triple of `[10, 11, 12, 13]` and
leaves the leftover index 13 alone; the zero matrix (determinant 0) leaves
the list unchanged. -/
theorem collider_winding_flip_spec_witness :
    (colliderIndices exNegMat [10, 11, 12, 13]).getD 1 0
      = ([10, 11, 12, 13] : List ℕ).getD 2 0 ∧
    (colliderIndices exNegMat [10, 11, 12, 13]).getD 3 0
      = ([10, 11, 12, 13] : List ℕ).getD 3 0 ∧
    colliderIndices ⟨fun _ _ => 0⟩ [10, 11, 12, 13] = [10, 11, 12, 13] :=
  ⟨by
    simpa using
      (((collider_winding_flip_spec exNegMat [10, 11, 12, 13]).1
        (by simp +decide [Mat4.det, det3, exNegMat])).2.1 0 (by decide)).2.1,
   by
    simpa using
      ((collider_winding_flip_spec exNegMat [10, 11, 12, 13]).1
        (by simp +decide [Mat4.det, det3, exNegMat])).2.2 3 (by decide),
   (collider_winding_flip_spec ⟨fun _ _ => 0⟩ [10, 11, 12, 13]).2
     (by simp +decide [Mat4.det, det3])⟩

/-! ## glTF ingestion (src/game.rs `Game::add_gltf`, src/scene.rs `Scene::add_gltf`)

Both ingestion paths share a data-collection loop over the document's nodes
followed by per-pipeline mesh-processing loops.  `HashMap<String, _>` state is
determinized to insertion-ordered association lists keyed by the mesh name
itself; the `hash_string_to_u64` keying of the registries is injective on the
names occurring in a document (no 64-bit hash collisions), so name keys are a
faithful determinization.  A `panic!`/`unwrap` failure is modelled as `none`. -/

/-- String-keyed association lookup (`HashMap<String, _>::get`). -/
def lookupC {α : Type} (l : List (List Char × α)) (k : List Char) : Option α :=
  (l.find? (fun p => p.1 == k)).map Prod.snd

/-- `HashMap::insert` on string keys: overwrite the entry if the key is
present, otherwise append a new one. -/
def upsertC {α : Type} (l : List (List Char × α)) (k : List Char) (v : α) :
    List (List Char × α) :=
  if (lookupC l k).isSome then l.map (fun p => if p.1 = k then (k, v) else p)
  else l ++ [(k, v)]

/-- `HashMap::remove` on string keys. -/
def removeC {α : Type} (l : List (List Char × α)) (k : List Char) :
    List (List Char × α) :=
  l.filter (fun p => !(p.1 == k))

/-- `instances.entry(base_name).or_default().push(instance)`: append to the
existing per-name instance list, or start a new singleton one. -/
def pushInst (l : List (List Char × List InstanceRaw)) (k : List Char)
    (i : InstanceRaw) : List (List Char × List InstanceRaw) :=
  match lookupC l k with
  | some insts => l.map (fun p => if p.1 = k then (k, insts ++ [i]) else p)
  | none => l ++ [(k, [i])]

/-- The first component of `name.split_once('.')`: `some` of the prefix
before the first dot when the name contains one, `none` otherwise. -/
def splitBase (name : List Char) : Option (List Char) :=
  if name.contains '.' then some (name.takeWhile (fun ch => ch != '.')) else none

/-- One glTF primitive as decoded by the `gltf` crate readers: the optional
index and position accessors, whether texture coordinates are present,
whether the material has a base-color texture backed by a buffer view, and
whether `Texture::from_bytes` succeeds on the referenced image bytes.
Vertex-attribute contents feed only the vertex buffers, which carry no
instance data, so positions are kept abstractly and the remaining
attributes (normals, colors, uv values) are dropped. -/
structure Prim where
  indices : Option (List ℕ)
  positions : Option (List (Fin 3 → ℚ))
  texCoords : Bool
  baseColorTexture : Bool
  textureOk : Bool

/-- A glTF node: the name of its mesh (when the node has a named mesh), its
transform, and the mesh's primitives. -/
structure GNode where
  meshName : Option (List Char)
  transform : Mat4
  prims : List Prim

/-- A binary glTF document: whether the binary blob is present, and the
node list. -/
structure GDoc where
  hasBlob : Bool
  nodes : List GNode

/-- The per-name collected instance lists (`HashMap<String, Vec<InstanceRaw>>`). -/
abbrev InstMap := List (List Char × List InstanceRaw)

/-- A collected mesh-data map (`textured_meshes` / `colored_meshes`), with
the payload abstracted to the primitive it came from. -/
abbrev PrimMap := List (List Char × Prim)

/-- A pipeline's mesh registry after ingestion, keyed by mesh name. -/
abbrev MeshReg := List (List Char × Mesh)

/-- The shared per-primitive collection step (the primitive loop body of
`Game::add_gltf`, identical to `Scene::add_primitive`): primitives without
indices are skipped; `read_positions().unwrap()` panics when positions are
missing; empty position lists are skipped; a primitive with texture
coordinates and a view-sourced base-color texture is recorded in the
textured map, any other in the colored map.  The accumulator is
`(textured_meshes, colored_meshes)`. -/
def collectPrim (name : List Char) (maps : PrimMap × PrimMap) (p : Prim) :
    Option (PrimMap × PrimMap) :=
  match p.indices with
  | none => some maps
  | some _ =>
    match p.positions with
    | none => none
    | some pos =>
      if pos.isEmpty then some maps
      else if p.texCoords && p.baseColorTexture then
        some (upsertC maps.1 name p, maps.2)
      else some (maps.1, upsertC maps.2 name p)

/-- Sequential primitive collection for one geometry node. -/
def collectPrims (name : List Char) (maps : PrimMap × PrimMap) :
    List Prim → Option (PrimMap × PrimMap)
  | [] => some maps
  | p :: rest =>
    match collectPrim name maps p with
    | none => none
    | some maps2 => collectPrims name maps2 rest

/-- The shared per-node collection step (the node loop body of
`Game::add_gltf`, identical to `Scene::add_node`): nodes without a named
mesh are skipped; a node named `base.suffix` records one instance for
`base` — model matrix from the node transform and normal matrix its
upper-3x3 inverse transpose, exactly `instOfPose` — and contributes no
geometry; any other named node contributes its primitives' geometry.  The
accumulator is `(instances, textured_meshes, colored_meshes)`. -/
def collectNode (acc : InstMap × PrimMap × PrimMap) (node : GNode) :
    Option (InstMap × PrimMap × PrimMap) :=
  match node.meshName with
  | none => some acc
  | some name =>
    match splitBase name with
    | some base =>
      some (pushInst acc.1 base (instOfPose node.transform), acc.2.1, acc.2.2)
    | none =>
      match collectPrims name (acc.2.1, acc.2.2) node.prims with
      | none => none
      | some maps => some (acc.1, maps.1, maps.2)

/-- The data-collection loop over the document's nodes. -/
def collectNodes (acc : InstMap × PrimMap × PrimMap) :
    List GNode → Option (InstMap × PrimMap × PrimMap)
  | [] => some acc
  | node :: rest =>
    match collectNode acc node with
    | none => none
    | some acc2 => collectNodes acc2 rest

/-- `Scene::add_gltf`'s colored-mesh processing loop: every collected
colored mesh is registered (via `ColorPipeline::add_mesh`) with the
instance list `instances.get(&name).unwrap()` — for a mesh never referenced
by an instance node the lookup is empty and the unwrap panics. -/
def sceneProcessColored (instances : InstMap) : PrimMap → Option MeshReg
  | [] => some []
  | (name, _p) :: rest =>
    match lookupC instances name with
    | none => none
    | some insts =>
      match sceneProcessColored instances rest with
      | none => none
      | some reg => some ((name, mkMesh insts) :: reg)

/-- `Scene::add_gltf`'s textured-mesh processing loop: `Texture::from_bytes`
is unwrapped (a decode failure panics), then the instance list is again
`instances.get(&name).unwrap()`. -/
def sceneProcessTextured (instances : InstMap) : PrimMap → Option MeshReg
  | [] => some []
  | (name, p) :: rest =>
    if p.textureOk then
      match lookupC instances name with
      | none => none
      | some insts =>
        match sceneProcessTextured instances rest with
        | none => none
        | some reg => some ((name, mkMesh insts) :: reg)
    else none

/-- `Scene::add_gltf` (src/scene.rs lines 81-194): collect node data when a
blob is present (without one the collection loop is skipped and the maps
stay empty), then register every colored and then every textured mesh.  The
result is the pair (color registry, texture registry); `none` is a panic.
The final physics loop only re-reads the same per-name instance lists for
the collider meshes, every one of which was already registered as a colored
or textured mesh, so it adds no further panic cases and writes nothing to
the render registries; it is therefore omitted here. -/
def sceneAddGltf (doc : GDoc) : Option (MeshReg × MeshReg) :=
  match (if doc.hasBlob then collectNodes ([], [], []) doc.nodes
         else some ([], [], [])) with
  | none => none
  | some (insts, tex, col) =>
    match sceneProcessColored insts col with
    | none => none
    | some creg =>
      match sceneProcessTextured insts tex with
      | none => none
      | some treg => some (creg, treg)

/-- `glam::Mat4::IDENTITY` in column-major layout. -/
def idMat4 : Mat4 := ⟨fun j i => if j = i then 1 else 0⟩

/-- `glam::Mat3::IDENTITY` in column-major layout. -/
def idMat3 : Mat3 := ⟨fun j i => if j = i then 1 else 0⟩

/-- The default instance `Game::add_gltf` pushes for a mesh whose collected
instance list is empty: identity model and normal matrices. -/
def identityInst : InstanceRaw := ⟨idMat4, idMat3⟩

/-- `Game::add_gltf`'s defaulting of a removed per-name instance list:
`unwrap_or_default()` followed by pushing the identity instance when the
list is empty. -/
def gameDefault (insts : List InstanceRaw) : List InstanceRaw :=
  if insts.isEmpty then [identityInst] else insts

/-- `Game::add_gltf`'s colored-mesh processing loop: the per-name instance
list is `instances.remove(&name).unwrap_or_default()`, defaulted to a
single identity instance when empty; entries are consumed from the instance
map as the loop proceeds.  Returns the remaining instance map and the color
registry. -/
def gameProcessColored (instances : InstMap) : PrimMap → InstMap × MeshReg
  | [] => (instances, [])
  | (name, _p) :: rest =>
    ((gameProcessColored (removeC instances name) rest).1,
     (name, mkMesh (gameDefault ((lookupC instances name).getD [])))
       :: (gameProcessColored (removeC instances name) rest).2)

/-- `Game::add_gltf`'s textured-mesh processing loop: the same consuming
defaulted removal, then the unwrapped `Texture::from_bytes` (a decode
failure panics). -/
def gameProcessTextured (instances : InstMap) :
    PrimMap → Option (InstMap × MeshReg)
  | [] => some (instances, [])
  | (name, p) :: rest =>
    if p.textureOk then
      match gameProcessTextured (removeC instances name) rest with
      | none => none
      | some r =>
        some (r.1, (name, mkMesh (gameDefault ((lookupC instances name).getD [])))
          :: r.2)
    else none

/-- `Game::add_gltf` (src/game.rs lines 45-222), after the renderer exists:
the blob is unwrapped (an absent blob panics), node data is collected, and
every colored and then every textured mesh is registered with its
possibly-defaulted instance list. -/
def gameAddGltf (doc : GDoc) : Option (MeshReg × MeshReg) :=
  if doc.hasBlob then
    match collectNodes ([], [], []) doc.nodes with
    | none => none
    | some (insts, tex, col) =>
      match gameProcessTextured (gameProcessColored insts col).1 tex with
      | none => none
      | some tr => some ((gameProcessColored insts col).2, tr.2)
  else none

theorem lookupC_cons_eq {α : Type} (p : List Char × α) (rest : List (List Char × α))
    (k : List Char) (h : p.1 = k) : lookupC (p :: rest) k = some p.2 := by
  unfold lookupC
  rw [List.find?_cons_of_pos _ (by simp [h])]
  rfl

theorem lookupC_cons_ne {α : Type} (p : List Char × α) (rest : List (List Char × α))
    (k : List Char) (h : ¬ p.1 = k) : lookupC (p :: rest) k = lookupC rest k := by
  unfold lookupC
  rw [List.find?_cons_of_neg _ (by simp [h])]

theorem lookupC_removeC_none {α : Type} (l : List (List Char × α)) (k k2 : List Char)
    (h : lookupC l k = none) : lookupC (removeC l k2) k = none := by
  unfold lookupC at h ⊢
  unfold removeC
  rw [Option.map_eq_none', List.find?_eq_none] at h ⊢
  intro x hx
  exact h x (List.mem_of_mem_filter hx)

theorem lookupC_overwrite_ne {α : Type} (l : List (List Char × α)) (b k : List Char)
    (f : α → α) (h : ¬ k = b) :
    lookupC (l.map (fun p => if p.1 = b then (b, f p.2) else p)) k = lookupC l k := by
  induction l with
  | nil => rfl
  | cons p rest ih =>
    rw [List.map_cons]
    by_cases hp : p.1 = b
    · rw [if_pos hp, lookupC_cons_ne (b, f p.2) _ _ (fun hbk => h hbk.symm),
        lookupC_cons_ne p _ _ (fun hpk => h (hp ▸ hpk).symm), ih]
    · rw [if_neg hp]
      by_cases hk : p.1 = k
      · rw [lookupC_cons_eq p _ _ hk, lookupC_cons_eq p _ _ hk]
      · rw [lookupC_cons_ne p _ _ hk, lookupC_cons_ne p _ _ hk, ih]

theorem lookupC_append_single_ne {α : Type} (l : List (List Char × α))
    (b k : List Char) (v : α) (h : ¬ k = b) :
    lookupC (l ++ [(b, v)]) k = lookupC l k := by
  induction l with
  | nil =>
    rw [List.nil_append, lookupC_cons_ne (b, v) _ _ (fun hbk => h hbk.symm)]
  | cons p rest ih =>
    by_cases hk : p.1 = k
    · rw [List.cons_append, lookupC_cons_eq p _ _ hk, lookupC_cons_eq p _ _ hk]
    · rw [List.cons_append, lookupC_cons_ne p _ _ hk, lookupC_cons_ne p _ _ hk, ih]

theorem lookupC_pushInst_ne (l : InstMap) (b k : List Char) (i : InstanceRaw)
    (h : ¬ k = b) : lookupC (pushInst l b i) k = lookupC l k := by
  unfold pushInst
  cases lookupC l b with
  | none => exact lookupC_append_single_ne l b k [i] h
  | some insts => exact lookupC_overwrite_ne l b k (fun _ => insts ++ [i]) h

theorem collectNode_inst_none (acc : InstMap × PrimMap × PrimMap) (node : GNode)
    (name : List Char) (acc2 : InstMap × PrimMap × PrimMap)
    (h : collectNode acc node = some acc2)
    (hn : lookupC acc.1 name = none)
    (href : ∀ nm, node.meshName = some nm → splitBase nm ≠ some name) :
    lookupC acc2.1 name = none := by
  unfold collectNode at h
  split at h
  · cases h
    exact hn
  · rename_i nm hm
    split at h
    · rename_i base hs
      cases h
      have hb : ¬ name = base := fun he => href nm hm (he ▸ hs)
      rw [lookupC_pushInst_ne _ _ _ _ hb]
      exact hn
    · split at h
      · cases h
      · cases h
        exact hn

theorem collectNodes_inst_none (nodes : List GNode)
    (acc res : InstMap × PrimMap × PrimMap) (name : List Char)
    (h : collectNodes acc nodes = some res)
    (hn : lookupC acc.1 name = none)
    (href : ∀ node ∈ nodes, ∀ nm, node.meshName = some nm →
      splitBase nm ≠ some name) :
    lookupC res.1 name = none := by
  induction nodes generalizing acc with
  | nil =>
    unfold collectNodes at h
    cases h
    exact hn
  | cons node rest ih =>
    unfold collectNodes at h
    cases hc : collectNode acc node with
    | none => rw [hc] at h; cases h
    | some acc2 =>
      rw [hc] at h
      exact ih acc2 h
        (collectNode_inst_none acc node name acc2 hc hn
          (fun nm hnm => href node (by simp) nm hnm))
        (fun n hn2 nm hnm => href n (by simp [hn2]) nm hnm)

theorem gameProcessColored_lookup_none (col : PrimMap) (instances : InstMap)
    (name : List Char) (hn : lookupC instances name = none) :
    lookupC (gameProcessColored instances col).1 name = none ∧
    (name ∈ col.map Prod.fst →
      ∃ m, lookupC (gameProcessColored instances col).2 name = some m ∧
        m.instances = [identityInst]) := by
  induction col generalizing instances with
  | nil =>
    refine ⟨hn, fun hm => ?_⟩
    simp at hm
  | cons e rest ih =>
    obtain ⟨n, p⟩ := e
    have hrec := ih (removeC instances n) (lookupC_removeC_none _ _ _ hn)
    unfold gameProcessColored
    refine ⟨hrec.1, fun hm => ?_⟩
    by_cases he : n = name
    · subst he
      rw [hn]
      refine ⟨mkMesh (gameDefault ((none : Option (List InstanceRaw)).getD [])), ?_, ?_⟩
      · exact lookupC_cons_eq _ _ _ rfl
      · simp [mkMesh, gameDefault]
    · rw [lookupC_cons_ne _ _ _ he]
      apply hrec.2
      simp only [List.map_cons, List.mem_cons] at hm
      rcases hm with hm | hm
      · exact absurd hm.symm he
      · exact hm

theorem gameProcessTextured_lookup_none (tex : PrimMap) (instances : InstMap)
    (name : List Char) (r : InstMap × MeshReg)
    (hn : lookupC instances name = none)
    (h : gameProcessTextured instances tex = some r)
    (hm : name ∈ tex.map Prod.fst) :
    ∃ m, lookupC r.2 name = some m ∧ m.instances = [identityInst] := by
  induction tex generalizing instances r with
  | nil => simp at hm
  | cons e rest ih =>
    obtain ⟨n, p⟩ := e
    unfold gameProcessTextured at h
    by_cases ht : p.textureOk
    · rw [if_pos ht] at h
      cases hr2 : gameProcessTextured (removeC instances n) rest with
      | none => rw [hr2] at h; cases h
      | some r2 =>
        rw [hr2] at h
        cases h
        by_cases he : n = name
        · subst he
          rw [hn]
          exact ⟨mkMesh (gameDefault ((none : Option (List InstanceRaw)).getD [])),
            lookupC_cons_eq _ _ _ rfl, by simp [mkMesh, gameDefault]⟩
        · rw [lookupC_cons_ne _ _ _ he]
          apply ih (removeC instances n) r2 (lookupC_removeC_none _ _ _ hn) hr2
          simp only [List.map_cons, List.mem_cons] at hm
          rcases hm with hm | hm
          · exact absurd hm.symm he
          · exact hm
    · rw [if_neg ht] at h
      cases h

/-- Mesh name for the ingestion examples. -/
def boxName : List Char := ['b', 'o', 'x']

/-- One colored primitive: indices and positions present and nonempty, no
texture coordinates, no base-color texture. -/
def boxPrim : Prim :=
  { indices := some [0, 1, 2]
    positions := some [fun _ => 0, fun _ => 1, fun _ => 2]
    texCoords := false
    baseColorTexture := false
    textureOk := true }

/-- A document whose single node defines the colored mesh "box" by geometry
and which contains no instance node at all. -/
def exDoc : GDoc :=
  { hasBlob := true
    nodes := [{ meshName := some boxName, transform := idMat4, prims := [boxPrim] }] }

/-- C5 counterexample: on `Scene::add_gltf` (one of the claim's two cited
ingestion routines), a mesh defined by a geometry node but never referenced
by any instance node is not stored with a default single identity-transform
instance.  On `exDoc` — which collects "box" into the colored-mesh map and
collects no instances — the colored processing loop unwraps the missing
per-name instance list and panics, so ingestion aborts and no registry
stores "box" at all, let alone with one identity instance. -/
theorem scene_add_gltf_unreferenced_mesh_counterexample :
    collectNodes ([], [], []) exDoc.nodes = some ([], [], [(boxName, boxPrim)]) ∧
    sceneAddGltf exDoc = none ∧
    ¬ ∃ r, sceneAddGltf exDoc = some r ∧
      ∃ m, lookupC r.1 boxName = some m ∧ m.instances = [identityInst] := by
  refine ⟨rfl, rfl, ?_⟩
  rintro ⟨r, hr, -⟩
  rw [show sceneAddGltf exDoc = none from rfl] at hr
  cases hr

/-- C5 (amended to the routine that implements the defaulting,
`Game::add_gltf`): for every glTF document whose ingestion completes, every
mesh that is collected into the colored or textured mesh map but is never
referenced by an instance node (no node named `base.suffix` with matching
base) is stored in the corresponding registry with exactly one instance,
the identity-transform instance. -/
theorem game_add_gltf_unreferenced_default_instance
    (doc : GDoc) (name : List Char) (insts : InstMap) (tex col : PrimMap)
    (r : MeshReg × MeshReg)
    (hc : collectNodes ([], [], []) doc.nodes = some (insts, tex, col))
    (href : ∀ node ∈ doc.nodes, ∀ nm, node.meshName = some nm →
      splitBase nm ≠ some name)
    (hr : gameAddGltf doc = some r) :
    (name ∈ col.map Prod.fst →
      ∃ m, lookupC r.1 name = some m ∧ m.instances = [identityInst]) ∧
    (name ∈ tex.map Prod.fst →
      ∃ m, lookupC r.2 name = some m ∧ m.instances = [identityInst]) := by
  have hnone : lookupC insts name = none :=
    collectNodes_inst_none doc.nodes ([], [], []) (insts, tex, col) name hc rfl href
  unfold gameAddGltf at hr
  by_cases hb : doc.hasBlob
  · rw [if_pos hb, hc] at hr
    dsimp only at hr
    cases ht : gameProcessTextured (gameProcessColored insts col).1 tex with
    | none => rw [ht] at hr; cases hr
    | some tr =>
      rw [ht] at hr
      cases hr
      have hcol := gameProcessColored_lookup_none col insts name hnone
      exact ⟨hcol.2,
        fun hm => gameProcessTextured_lookup_none tex _ name tr hcol.1 ht hm⟩
  · rw [if_neg hb] at hr
    cases hr

/-- Closed witness for `game_add_gltf_unreferenced_default_instance`: on
the same single-geometry-node document, the Game-path ingestion registers
"box" in the color registry with exactly one identity instance. -/
theorem game_add_gltf_unreferenced_default_instance_witness :
    ∃ m, lookupC ([(boxName, mkMesh [identityInst])] : MeshReg) boxName = some m ∧
      m.instances = [identityInst] :=
  (game_add_gltf_unreferenced_default_instance exDoc boxName [] []
      [(boxName, boxPrim)] ([(boxName, mkMesh [identityInst])], []) rfl
      (by
        intro node hnode nm hnm
        have hn2 : node = ⟨some boxName, idMat4, [boxPrim]⟩ := by
          simpa [exDoc] using hnode
        subst hn2
        have hb2 : nm = boxName := by simpa using hnm.symm
        subst hb2
        decide)
      rfl).1 (by simp)
